import Mathlib

/-!
# honeydew: commit driver (`cmd/main.go`)

A shallow embedding of `cmd/main.go`.  The program talks to three external
parties: the Consul key-value store, the filesystem and the `git` binary.
Their answers are inputs of a run; they are collected in a `World` record
holding one answer per call site of the source (indexed by the loop
iteration for the calls made inside the commit loop).  Every external
operation the program performs is recorded, in order, in a trace of
`Event`s, so that statements such as "no push is invoked" become
statements about the trace.
-/

namespace Honeydew

/-! ## Errors -/

/-- An error reported by the operating system, by a subprocess or by the
Consul client.  `notExist` is the one `errors.Is(err, os.ErrNotExist)`
recognises. -/
inductive OsErr where
  | notExist
  | other (code : Nat)
  deriving DecidableEq, Repr

/-- Go `error` values the program handles: a foreign error, `fmt.Errorf`
with a format ending in the wrapping verb around another error (format
string, the other arguments, the wrapped error), `fmt.Errorf` without
wrapping, and the two errors of `encoding/json` (`SyntaxError`,
`UnmarshalTypeError` with the kind of JSON value met). -/
inductive Error where
  | os (e : OsErr)
  | wrap (format : String) (args : List String) (inner : Error)
  | msg (format : String) (args : List String)
  | jsonSyntax
  | jsonType (what : String)
  deriving DecidableEq, Repr

/-! ## Library functions used by `execGit` -/

/-- Go `unicode.IsSpace`: the Latin-1 spaces and the `White_Space` table. -/
def isSpace (c : Char) : Bool :=
  let n := c.toNat
  (9 ≤ n && n ≤ 13) || n = 32 || n = 0x85 || n = 0xA0 || n = 0x1680 ||
  (0x2000 ≤ n && n ≤ 0x200A) || n = 0x2028 || n = 0x2029 || n = 0x202F ||
  n = 0x205F || n = 0x3000

/-- Drop the leading white space of a list of characters. -/
def trimLeft : List Char → List Char
  | [] => []
  | c :: cs => if isSpace c then trimLeft cs else c :: cs

/-- Go `strings.TrimSpace` on the characters of a string. -/
def trimSpaceChars (cs : List Char) : List Char :=
  (trimLeft (trimLeft cs).reverse).reverse

/-- Go `strings.TrimSpace`. -/
def TrimSpace (s : String) : String := ⟨trimSpaceChars s.data⟩

/-- The backtracking step of `filepath.Clean` at a `..` element: `w` is
decremented once, then further while it is above `dotdot` and the byte at
index `w` is not a separator; the buffer is then `out[:w]`.  The argument is
the buffer reversed: its head is the byte at index `w` after the decrement
and its tail has length `w`. -/
def cleanBacktrack (dotdot : Nat) : List Char → List Char
  | [] => []
  | c :: revOut =>
    if revOut.length > dotdot ∧ c ≠ '/' then cleanBacktrack dotdot revOut
    else revOut

/-- The main loop of Go `filepath.Clean` (Unix): `path` is what remains to be
read, `out` the buffer written so far, `dotdot` the index in `out` where a
`..` element must stop. -/
def cleanLoop (rooted : Bool) : Nat → List Char → List Char → Nat → List Char
  | 0, _, out, _ => out
  | _ + 1, [], out, _ => out
  | fuel + 1, c :: rest, out, dotdot =>
    if c = '/' then
      -- empty path element
      cleanLoop rooted fuel rest out dotdot
    else if c = '.' ∧ (rest = [] ∨ rest.head? = some '/') then
      -- . element
      cleanLoop rooted fuel rest out dotdot
    else if c = '.' ∧ rest.head? = some '.' ∧
        (rest.tail = [] ∨ rest.tail.head? = some '/') then
      -- .. element: remove to last separator
      if out.length > dotdot then
        cleanLoop rooted fuel rest.tail
          (cleanBacktrack dotdot out.reverse).reverse dotdot
      else if !rooted then
        let out1 := if out.length > 0 then out ++ ['/'] else out
        let out2 := out1 ++ ['.', '.']
        cleanLoop rooted fuel rest.tail out2 out2.length
      else
        cleanLoop rooted fuel rest.tail out dotdot
    else
      -- real path element: add slash if needed, copy element
      let out1 :=
        if (rooted ∧ out.length ≠ 1) ∨ (!rooted ∧ out.length ≠ 0) then out ++ ['/']
        else out
      cleanLoop rooted fuel ((c :: rest).dropWhile (fun x => x ≠ '/'))
        (out1 ++ (c :: rest).takeWhile (fun x => x ≠ '/')) dotdot

/-- Go `filepath.Clean` on Unix. -/
def cleanChars (path : List Char) : List Char :=
  match path with
  | [] => ['.']
  | c :: _ =>
    let rooted : Bool := c = '/'
    let out :=
      if rooted then cleanLoop true path.length path.tail ['/'] 1
      else cleanLoop false path.length path [] 0
    if out = [] then ['.'] else out

/-- Go `filepath.Join` on Unix: the elements from the first non-empty one on
are joined with the separator and the result is cleaned; an empty string when
all elements are empty. -/
def joinChars : List (List Char) → List Char
  | [] => []
  | e :: es =>
    if e = [] then joinChars es
    else cleanChars (List.intercalate ['/'] (e :: es))

/-- Go `filepath.Join` for strings. -/
def filepathJoin (elem : List String) : String :=
  ⟨joinChars (elem.map String.data)⟩

/-! ## `encoding/json`, as far as `json.Unmarshal` into `ConsulData` goes -/

/-- A parsed JSON text.  Numbers keep their literal, strings are unquoted. -/
inductive JValue where
  | null
  | bool (b : Bool)
  | number (lit : List Char)
  | string (s : List Char)
  | array (elems : List JValue)
  | object (members : List (List Char × JValue))

instance : Inhabited JValue := ⟨JValue.null⟩

/-- The white space of JSON: space, tab, carriage return, line feed. -/
def isJsonSpace (c : Char) : Bool :=
  c.toNat = 32 || c.toNat = 9 || c.toNat = 13 || c.toNat = 10

/-- Skip JSON white space. -/
def skipSpace : List Char → List Char
  | [] => []
  | c :: cs => if isJsonSpace c then skipSpace cs else c :: cs

/-- Decimal digit test. -/
def isDigit (c : Char) : Bool := 48 ≤ c.toNat && c.toNat ≤ 57

/-- Value of a hexadecimal digit. -/
def hexVal (c : Char) : Option Nat :=
  let n := c.toNat
  if 48 ≤ n ∧ n ≤ 57 then some (n - 48)
  else if 97 ≤ n ∧ n ≤ 102 then some (n - 87)
  else if 65 ≤ n ∧ n ≤ 70 then some (n - 55)
  else none

/-- The character a one-letter escape stands for. -/
def escapeChar (e : Char) : Option Char :=
  if e.toNat = 34 then some (Char.ofNat 34)
  else if e.toNat = 92 then some (Char.ofNat 92)
  else if e = '/' then some '/'
  else if e = 'b' then some (Char.ofNat 8)
  else if e = 'f' then some (Char.ofNat 12)
  else if e = 'n' then some (Char.ofNat 10)
  else if e = 'r' then some (Char.ofNat 13)
  else if e = 't' then some (Char.ofNat 9)
  else none

/-- Scan a string literal after its opening quote and unquote it: returns
the contents and the input after the closing quote.  A `\u` escape that is
not a Unicode scalar value (a surrogate half) yields U+FFFD. -/
def parseString : Nat → List Char → List Char → Option (List Char × List Char)
  | 0, _, _ => none
  | _ + 1, [], _ => none
  | fuel + 1, c :: rest, acc =>
    if c.toNat = 34 then some (acc.reverse, rest)
    else if c.toNat = 92 then
      match rest with
      | [] => none
      | e :: rest1 =>
        if e = 'u' then
          match rest1 with
          | h1 :: h2 :: h3 :: h4 :: rest2 =>
            match hexVal h1, hexVal h2, hexVal h3, hexVal h4 with
            | some a, some b, some c4, some d =>
              let code := ((a * 16 + b) * 16 + c4) * 16 + d
              let ch := if 0xD800 ≤ code ∧ code ≤ 0xDFFF then Char.ofNat 0xFFFD
                else Char.ofNat code
              parseString fuel rest2 (ch :: acc)
            | _, _, _, _ => none
          | _ => none
        else
          match escapeChar e with
          | some ch => parseString fuel rest1 (ch :: acc)
          | none => none
    else if c.toNat < 32 then none
    else parseString fuel rest (c :: acc)

/-- The optional sign of an exponent: the sign read and the rest. -/
def scanSign (cs : List Char) : List Char × List Char :=
  match cs with
  | [] => ([], [])
  | s :: r => if s = '+' ∨ s = '-' then ([s], r) else ([], s :: r)

/-- The exponent part of a number literal, if any. -/
def scanExp (lit : List Char) (cs : List Char) : Option (List Char × List Char) :=
  match cs with
  | [] => some (lit, [])
  | e :: r1 =>
    if e = 'e' ∨ e = 'E' then
      let signed := scanSign r1
      let ds := signed.2.takeWhile isDigit
      if ds = [] then none
      else some (lit ++ e :: signed.1 ++ ds, signed.2.dropWhile isDigit)
    else some (lit, e :: r1)

/-- The fraction part of a number literal, if any, then the exponent. -/
def scanFrac (lit : List Char) (cs : List Char) : Option (List Char × List Char) :=
  match cs with
  | [] => some (lit, [])
  | d :: r1 =>
    if d = '.' then
      let ds := r1.takeWhile isDigit
      if ds = [] then none
      else scanExp (lit ++ '.' :: ds) (r1.dropWhile isDigit)
    else scanExp lit (d :: r1)

/-- The integer part of a number literal after the optional minus sign: a
single `0`, or a non-zero digit followed by digits. -/
def scanInt (sign : List Char) (cs : List Char) : Option (List Char × List Char) :=
  match cs with
  | [] => none
  | d :: r =>
    if d = '0' then scanFrac (sign ++ ['0']) r
    else if isDigit d then
      scanFrac (sign ++ d :: r.takeWhile isDigit) (r.dropWhile isDigit)
    else none

/-- Scan a JSON number literal. -/
def scanNumber (cs : List Char) : Option (List Char × List Char) :=
  match cs with
  | [] => none
  | c :: r => if c = '-' then scanInt ['-'] r else scanInt [] (c :: r)

/-- Strip a literal word from the front of the input. -/
def stripWord : List Char → List Char → Option (List Char)
  | [], cs => some cs
  | _ :: _, [] => none
  | w :: ws, c :: cs => if w = c then stripWord ws cs else none

/-- The deepest nesting of arrays and objects `encoding/json` accepts
(`maxNestingDepth`); a text nested deeper is a `SyntaxError`. -/
def maxNestingDepth : Nat := 10000

mutual

/-- Parse one JSON value at the head of the input (white space already
skipped); returns the value and the rest of the input.  `depth` is the
number of arrays and objects open around the value; opening one more when
`maxNestingDepth` are open already is an error. -/
def parseValue : Nat → Nat → List Char → Option (JValue × List Char)
  | 0, _, _ => none
  | _ + 1, _, [] => none
  | fuel + 1, depth, c :: rest =>
    if c.toNat = 123 then
      if maxNestingDepth ≤ depth then none
      else
        match skipSpace rest with
        | [] => none
        | d :: r =>
          if d.toNat = 125 then some (JValue.object [], r)
          else
            match parseMembers fuel (depth + 1) (d :: r) with
            | some (ms, r1) => some (JValue.object ms, r1)
            | none => none
    else if c = '[' then
      if maxNestingDepth ≤ depth then none
      else
        match skipSpace rest with
        | [] => none
        | d :: r =>
          if d = ']' then some (JValue.array [], r)
          else
            match parseElems fuel (depth + 1) (d :: r) with
            | some (vs, r1) => some (JValue.array vs, r1)
            | none => none
    else if c.toNat = 34 then
      match parseString rest.length rest [] with
      | some (s, r) => some (JValue.string s, r)
      | none => none
    else if c = '-' ∨ isDigit c then
      match scanNumber (c :: rest) with
      | some (lit, r) => some (JValue.number lit, r)
      | none => none
    else if c = 't' then
      match stripWord ['r', 'u', 'e'] rest with
      | some r => some (JValue.bool true, r)
      | none => none
    else if c = 'f' then
      match stripWord ['a', 'l', 's', 'e'] rest with
      | some r => some (JValue.bool false, r)
      | none => none
    else if c = 'n' then
      match stripWord ['u', 'l', 'l'] rest with
      | some r => some (JValue.null, r)
      | none => none
    else none

/-- Parse the elements of a non-empty array up to and including the closing
bracket; `depth` counts the array itself. -/
def parseElems : Nat → Nat → List Char → Option (List JValue × List Char)
  | 0, _, _ => none
  | fuel + 1, depth, cs =>
    match parseValue fuel depth cs with
    | none => none
    | some (v, r) =>
      match skipSpace r with
      | [] => none
      | d :: r1 =>
        if d = ',' then
          match parseElems fuel depth (skipSpace r1) with
          | some (vs, r2) => some (v :: vs, r2)
          | none => none
        else if d = ']' then some ([v], r1)
        else none

/-- Parse the members of a non-empty object up to and including the closing
brace; `depth` counts the object itself. -/
def parseMembers : Nat → Nat → List Char →
    Option (List (List Char × JValue) × List Char)
  | 0, _, _ => none
  | _ + 1, _, [] => none
  | fuel + 1, depth, q :: cs =>
    if q.toNat = 34 then
      match parseString cs.length cs [] with
      | none => none
      | some (key, r) =>
        match skipSpace r with
        | [] => none
        | colon :: r1 =>
          if colon = ':' then
            match parseValue fuel depth (skipSpace r1) with
            | none => none
            | some (v, r2) =>
              match skipSpace r2 with
              | [] => none
              | d :: r3 =>
                if d = ',' then
                  match parseMembers fuel depth (skipSpace r3) with
                  | some (ms, r4) => some ((key, v) :: ms, r4)
                  | none => none
                else if d.toNat = 125 then some ([(key, v)], r3)
                else none
          else none
    else none

end

/-- Parse a whole JSON text: one value surrounded by optional white space,
nested no deeper than `maxNestingDepth`.  `none` is what `checkValid` reports
as a `SyntaxError`. -/
def parseJSON (data : List Char) : Option JValue :=
  match parseValue (data.length + 1) 0 (skipSpace data) with
  | none => none
  | some (v, r) => if skipSpace r = [] then some v else none

/-- The value of a string of decimal digits; `none` when it is empty or holds
another character. -/
def digitsValue : List Char → Option Nat → Option Nat
  | [], acc => acc
  | c :: cs, acc =>
    if isDigit c then digitsValue cs (some (acc.getD 0 * 10 + (c.toNat - 48)))
    else none

/-- Go `strconv.ParseInt(s, 10, 64)`: an optional sign and decimal digits,
within the range of `int64`. -/
def parseInt64 (s : List Char) : Option Int :=
  match s with
  | [] => none
  | c :: cs =>
    if c = '-' then
      match digitsValue cs none with
      | some n => if n ≤ 2 ^ 63 then some (-(n : Int)) else none
      | none => none
    else
      match digitsValue (if c = '+' then cs else c :: cs) none with
      | some n => if n < 2 ^ 63 then some (n : Int) else none
      | none => none

/-- ASCII upper-casing, the folding `encoding/json` applies to the letters of
an object key before comparing it with a field name. -/
def asciiUpper (c : Char) : Char :=
  if 97 ≤ c.toNat ∧ c.toNat ≤ 122 then Char.ofNat (c.toNat - 32) else c

/-- Whether an object key selects the field tagged `json:"num"`: an exact or
a case-insensitive match. -/
def foldsToNum (key : List Char) : Bool :=
  key.map asciiUpper = ['N', 'U', 'M']

/-- The record the stored value is decoded into (source lines 166-168). -/
structure ConsulData where
  Num : Int
  deriving DecidableEq, Repr

/-- Store one JSON value into the `int` field `Num`: `null` leaves it alone,
an integer literal in range sets it, anything else is an
`UnmarshalTypeError`.  The range is that of `int64`: the program is taken to
be built for a platform where `int` has 64 bits. -/
def decodeNum (v : JValue) (d : ConsulData) : ConsulData × Option Error :=
  match v with
  | JValue.null => (d, none)
  | JValue.number lit =>
    match parseInt64 lit with
    | some n => ({ Num := n }, none)
    | none => (d, some (Error.jsonType "number"))
  | JValue.bool _ => (d, some (Error.jsonType "bool"))
  | JValue.string _ => (d, some (Error.jsonType "string"))
  | JValue.array _ => (d, some (Error.jsonType "array"))
  | JValue.object _ => (d, some (Error.jsonType "object"))

/-- Decode the members of the top-level object in order; members whose key
does not select `Num` are skipped, the first type error is kept and decoding
goes on. -/
def decodeObject : List (List Char × JValue) → ConsulData → Option Error →
    ConsulData × Option Error
  | [], d, saved => (d, saved)
  | (key, v) :: ms, d, saved =>
    if foldsToNum key then
      let r := decodeNum v d
      decodeObject ms r.1 (if saved.isSome then saved else r.2)
    else decodeObject ms d saved

/-- Go `json.Unmarshal(value, &consulData)`: the text is checked first, then
decoded; a top-level `null` decodes to no change, a top-level value that is
neither `null` nor an object is a type error. -/
def Unmarshal (data : List Char) (v : ConsulData) : Except Error ConsulData :=
  match parseJSON data with
  | none => Except.error Error.jsonSyntax
  | some JValue.null => Except.ok v
  | some (JValue.object ms) =>
    match decodeObject ms v none with
    | (d, none) => Except.ok d
    | (_, some e) => Except.error e
  | some (JValue.bool _) => Except.error (Error.jsonType "bool")
  | some (JValue.number _) => Except.error (Error.jsonType "number")
  | some (JValue.string _) => Except.error (Error.jsonType "string")
  | some (JValue.array _) => Except.error (Error.jsonType "array")

/-! ## The world and the trace -/

/-- The two ways `execGit` opens the tracked file, both with permission
`0600`: `os.O_RDWR|os.O_CREATE` (line 84) and `os.O_RDWR|os.O_APPEND`
(line 93). -/
inductive OpenFlag where
  | rdwrCreate
  | rdwrAppend
  deriving DecidableEq, Repr

/-- What `log.Println` and `log.Printf` are given. -/
inductive LogItem where
  | consulData (d : ConsulData)
  | error (e : OsErr)
  | text (s : String)
  deriving DecidableEq, Repr

/-- An `exec.Cmd` as the program configures it before `Run`: the arguments,
the working directory, and whether `Stdout` and `Stderr` are attached. -/
structure Cmd where
  args : List String
  dir : String
  stdout : Bool
  stderr : Bool
  deriving DecidableEq, Repr

/-- An external operation of the program. -/
inductive Op where
  | newClient
  | kvGet (key : String)
  | log (item : LogItem)
  | stat (path : String)
  | chdir (path : String)
  | openFile (path : String) (flag : OpenFlag) (perm : Nat)
  | writeString (file : String) (s : String)
  | run (cmd : Cmd)
  | close (file : String)
  | exit (code : Nat)
  deriving DecidableEq, Repr

/-- An operation together with whether it succeeded. -/
structure Event where
  op : Op
  ok : Bool
  deriving DecidableEq, Repr

/-- The answer to `os.Stat`: the file information (only `IsDir` is used) or
an error. -/
inductive StatResult where
  | info (isDir : Bool)
  | error (e : OsErr)
  deriving DecidableEq, Repr

/-- The answer to `KV.Get`: an error, or the pair, which is nil (`none`) when
the key does not exist and otherwise holds the stored `Value`. -/
inductive KVResult where
  | error (e : OsErr)
  | pair (value : Option String)
  deriving DecidableEq, Repr

/-- The answers of the outside world, one per call site of the source.
`env` is the process environment; `statDir` answers `os.Stat(repoDirTrimmed)`
and `statFile` answers `os.Stat(textFilePath)`; `openFile` answers the
`os.OpenFile` call made with the given flags; `write`, `gitAdd` and
`gitCommit` are indexed by the loop variable `i`; `gitPush 0` answers the
first push and `gitPush 1` the second. -/
structure World where
  env : String → Option String
  newClient : Option OsErr
  kvGet : KVResult
  statDir : StatResult
  chdir : Option OsErr
  statFile : Option OsErr
  openFile : OpenFlag → Option OsErr
  write : Nat → Option OsErr
  gitAdd : Nat → Option OsErr
  gitCommit : Nat → Option OsErr
  gitPush : Nat → Option OsErr
  close : Option OsErr

/-- Go `os.Getenv`: the value, empty when the variable is not present. -/
def Getenv (w : World) (key : String) : String := (w.env key).getD ""

/-- How a function call ends: it returns its `error` result to the caller, the
process exits inside it (`os.Exit`), or it panics. -/
inductive Result where
  | returned (err : Option Error)
  | exited (code : Nat)
  | panicked
  deriving DecidableEq, Repr

/-- The end of a call and the operations performed during it, in order. -/
structure Outcome where
  result : Result
  trace : List Event
  deriving DecidableEq, Repr

/-! ## The program -/

/-- Source lines 18-22; the open file is identified by the name it was opened
under. -/
structure gitCommitOption where
  f : String
  textFilePath : String
  repoDirTrimmed : String
  deriving DecidableEq, Repr

/-- Source lines 24-28. -/
structure gitContext where
  num : Int
  verbose : Bool
  tryForcePush : Bool
  deriving DecidableEq, Repr

/-- The write of line 31. -/
def writeOp (option : gitCommitOption) : Op :=
  Op.writeString option.f "random word\n"

/-- The command of lines 35-37. -/
def gitAddCommand (option : gitCommitOption) : Cmd :=
  { args := ["git", "add", option.textFilePath], dir := option.repoDirTrimmed,
    stdout := false, stderr := true }

/-- The command of lines 42-47. -/
def gitCommitCommand (option : gitCommitOption) (ctx : gitContext) : Cmd :=
  { args := ["git", "commit", "-m", "regular"], dir := option.repoDirTrimmed,
    stdout := ctx.verbose, stderr := true }

/-- Source lines 30-53, in loop iteration `i`: the returned error and the
operations performed. -/
def gitCommit (option : gitCommitOption) (ctx : gitContext) (w : World) (i : Nat) :
    Option Error × List Event :=
  match w.write i with
  | some err =>
    (some (Error.wrap "写入文件失败: %w" [] (Error.os err)), [⟨writeOp option, false⟩])
  | none =>
    match w.gitAdd i with
    | some err =>
      (some (Error.wrap "执行 git add 失败: %w" [] (Error.os err)),
        [⟨writeOp option, true⟩, ⟨Op.run (gitAddCommand option), false⟩])
    | none =>
      match w.gitCommit i with
      | some err =>
        (some (Error.wrap "执行 git commit 失败: %w" [] (Error.os err)),
          [⟨writeOp option, true⟩, ⟨Op.run (gitAddCommand option), true⟩,
            ⟨Op.run (gitCommitCommand option ctx), false⟩])
      | none =>
        (none,
          [⟨writeOp option, true⟩, ⟨Op.run (gitAddCommand option), true⟩,
            ⟨Op.run (gitCommitCommand option ctx), true⟩])

/-- The loop of source lines 105-114, entered with loop variable `i` and
`remaining` iterations to go (`num - i`): the error it makes `execGit` return,
if any, and the operations performed. -/
def commitLoop (option : gitCommitOption) (ctx : gitContext) (w : World) :
    Nat → Nat → Option Error × List Event
  | 0, _ => (none, [])
  | remaining + 1, i =>
    match gitCommit option ctx w i with
    | (some err, evs) => (some err, evs)
    | (none, evs) =>
      let r := commitLoop option ctx w remaining (i + 1)
      (r.1, evs ++ r.2)

/-- The command of lines 115-117, built again at lines 127-129. -/
def gitPushCommand (repoDirTrimmed : String) : Cmd :=
  { args := ["git", "push", "origin", "master:main"], dir := repoDirTrimmed,
    stdout := false, stderr := true }

/-- Source lines 115-135: the push and the second push. -/
def pushStage (ctx : gitContext) (w : World) (repoDirTrimmed : String) :
    Option Error × List Event :=
  let err := w.gitPush 0
  let normalPushWorked : Bool := err.isNone
  let push1 : Event := ⟨Op.run (gitPushCommand repoDirTrimmed), err.isNone⟩
  if err.isSome && !ctx.tryForcePush then
    (err.map Error.os, [push1])
  else if !normalPushWorked && ctx.tryForcePush then
    match w.gitPush 1 with
    | some err2 =>
      (some (Error.wrap "force push 失败: %w" [] (Error.os err2)),
        [push1, ⟨Op.run (gitPushCommand repoDirTrimmed), false⟩])
    | none => (none, [push1, ⟨Op.run (gitPushCommand repoDirTrimmed), true⟩])
  else (none, [push1])

/-- Source lines 105-135: what `execGit` does between opening the tracked
file and the deferred close. -/
def execGitBody (ctx : gitContext) (w : World) (textFilePath repoDirTrimmed : String) :
    Option Error × List Event :=
  match commitLoop ⟨textFilePath, textFilePath, repoDirTrimmed⟩ ctx w ctx.num.toNat 0 with
  | (some err, evs) => (some err, evs)
  | (none, evs) =>
    let r := pushStage ctx w repoDirTrimmed
    (r.1, evs ++ r.2)

/-- The operations of the deferred function of lines 98-104: the file is
closed; if that fails the error is logged and the process exits. -/
def closeEvents (w : World) (f : String) : List Event :=
  match w.close with
  | none => [⟨Op.close f, true⟩]
  | some err =>
    [⟨Op.close f, false⟩, ⟨Op.log (LogItem.error err), true⟩, ⟨Op.exit 1, true⟩]

/-- The deferred function of lines 98-104 run when `execGit` returns after
the file was opened: `pre` holds the operations up to the open, `body` what
the rest of `execGit` returns and performs.  When the close fails the process
exits with status 1 and `execGit` does not return. -/
def deferredClose (w : World) (f : String) (pre : List Event)
    (body : Option Error × List Event) : Outcome :=
  match w.close with
  | none => ⟨Result.returned body.1, pre ++ body.2 ++ closeEvents w f⟩
  | some _ => ⟨Result.exited 1, pre ++ body.2 ++ closeEvents w f⟩

/-- Source lines 55-136.  `context` is the value stored under `gitContextKey`
when it is a `*gitContext`, `none` otherwise. -/
def execGit (context : Option gitContext) (w : World) : Outcome :=
  match context with
  | none => ⟨Result.returned (some (Error.msg "context 类型错误: %T" [])), []⟩
  | some gitContextValue =>
    let repoDir := Getenv w "HONEYDEW_REPO_DIR"
    let repoDirTrimmed := TrimSpace repoDir
    if repoDirTrimmed = "" then
      ⟨Result.returned (some (Error.msg "未设置 REPO 路径 HONEYDEW_REPO_DIR" [])), []⟩
    else
      match w.statDir with
      | StatResult.error err =>
        if err = OsErr.notExist then
          ⟨Result.returned (some (Error.wrap "目录 %s 不存在: %w" [repoDirTrimmed]
            (Error.os err))), [⟨Op.stat repoDirTrimmed, false⟩]⟩
        else
          ⟨Result.returned (some (Error.wrap "目录 %s 打开失败: %w" [repoDirTrimmed]
            (Error.os err))), [⟨Op.stat repoDirTrimmed, false⟩]⟩
      | StatResult.info isDir =>
        if !isDir then
          ⟨Result.returned (some (Error.msg "%s 不是目录" [repoDirTrimmed])),
            [⟨Op.stat repoDirTrimmed, true⟩]⟩
        else
          match w.chdir with
          | some err =>
            ⟨Result.returned (some (Error.wrap "cd %q 失败: %w" [repoDirTrimmed]
              (Error.os err))),
              [⟨Op.stat repoDirTrimmed, true⟩, ⟨Op.chdir repoDirTrimmed, false⟩]⟩
          | none =>
            let textFilePath := filepathJoin [repoDir, "hello.txt"]
            let pre : List Event :=
              [⟨Op.stat repoDirTrimmed, true⟩, ⟨Op.chdir repoDirTrimmed, true⟩]
            match w.statFile with
            | some err =>
              if err = OsErr.notExist then
                match w.openFile OpenFlag.rdwrCreate with
                | some err2 =>
                  ⟨Result.returned (some (Error.wrap "文件 %q 创建失败: %w" [textFilePath]
                    (Error.os err2))),
                    pre ++ [⟨Op.stat textFilePath, false⟩,
                      ⟨Op.openFile textFilePath OpenFlag.rdwrCreate 0o600, false⟩]⟩
                | none =>
                  deferredClose w textFilePath
                    (pre ++ [⟨Op.stat textFilePath, false⟩,
                      ⟨Op.openFile textFilePath OpenFlag.rdwrCreate 0o600, true⟩])
                    (execGitBody gitContextValue w textFilePath repoDirTrimmed)
              else
                ⟨Result.returned (some (Error.os err)),
                  pre ++ [⟨Op.stat textFilePath, false⟩]⟩
            | none =>
              match w.openFile OpenFlag.rdwrAppend with
              | some err2 =>
                ⟨Result.returned (some (Error.wrap "文件 %q 打开失败: %w" [textFilePath]
                  (Error.os err2))),
                  pre ++ [⟨Op.stat textFilePath, true⟩,
                    ⟨Op.openFile textFilePath OpenFlag.rdwrAppend 0o600, false⟩]⟩
              | none =>
                deferredClose w textFilePath
                  (pre ++ [⟨Op.stat textFilePath, true⟩,
                    ⟨Op.openFile textFilePath OpenFlag.rdwrAppend 0o600, true⟩])
                  (execGitBody gitContextValue w textFilePath repoDirTrimmed)

/-- Source lines 170-191: the end of the call and the context after it. -/
def getConsulData (ctx : gitContext) (w : World) : Outcome × gitContext :=
  match w.newClient with
  | some err => (⟨Result.returned (some (Error.os err)), [⟨Op.newClient, false⟩]⟩, ctx)
  | none =>
    match w.kvGet with
    | KVResult.error err =>
      (⟨Result.returned (some (Error.os err)),
        [⟨Op.newClient, true⟩, ⟨Op.kvGet "config/honeydew", false⟩]⟩, ctx)
    | KVResult.pair none =>
      -- `data.Value` with `data == nil`
      (⟨Result.panicked, [⟨Op.newClient, true⟩, ⟨Op.kvGet "config/honeydew", true⟩]⟩, ctx)
    | KVResult.pair (some value) =>
      match Unmarshal value.data { Num := 0 } with
      | Except.error err =>
        (⟨Result.returned (some err),
          [⟨Op.newClient, true⟩, ⟨Op.kvGet "config/honeydew", true⟩]⟩, ctx)
      | Except.ok consulData =>
        (⟨Result.returned none,
          [⟨Op.newClient, true⟩, ⟨Op.kvGet "config/honeydew", true⟩] ++
            (if ctx.verbose then [⟨Op.log (LogItem.consulData consulData), true⟩] else [])⟩,
          { ctx with num := consulData.Num })

/-- Source lines 138-164. -/
def _main (w : World) : Outcome :=
  let g : gitContext := { num := 0, verbose := true, tryForcePush := true }
  match getConsulData g w with
  | (⟨Result.returned none, tr⟩, g1) =>
    let HOME := Getenv w "HOME"
    if HOME = "" then ⟨Result.returned (some (Error.msg "env HOME is not defined" [])), tr⟩
    else
      match execGit (some g1) w with
      | ⟨Result.returned none, tr2⟩ =>
        ⟨Result.returned none, tr ++ tr2 ++ [⟨Op.log (LogItem.text "执行结束"), true⟩]⟩
      | ⟨r, tr2⟩ => ⟨r, tr ++ tr2⟩
  | (o, _) => o

/-! ## Observations on a run -/

/-- A filesystem operation: stat, chdir, open, write or close. -/
def Event.isFs (e : Event) : Bool :=
  match e.op with
  | Op.stat _ => true
  | Op.chdir _ => true
  | Op.openFile _ _ _ => true
  | Op.writeString _ _ => true
  | Op.close _ => true
  | _ => false

/-- A subprocess invocation. -/
def Event.isRun (e : Event) : Bool :=
  match e.op with
  | Op.run _ => true
  | _ => false

/-- An invocation of `git` with the given subcommand. -/
def Event.isGit (sub : String) (e : Event) : Bool :=
  match e.op with
  | Op.run cmd => cmd.args.take 2 == ["git", sub]
  | _ => false

/-- A write to a file. -/
def Event.isWrite (e : Event) : Bool :=
  match e.op with
  | Op.writeString _ _ => true
  | _ => false

/-- The number of `git push` invocations in a trace. -/
def pushCount (tr : List Event) : Nat := tr.countP (Event.isGit "push")

/-- The number of `git commit` invocations in a trace. -/
def commitCount (tr : List Event) : Nat := tr.countP (Event.isGit "commit")

/-- The number of `git add` invocations in a trace. -/
def addCount (tr : List Event) : Nat := tr.countP (Event.isGit "add")

/-- The number of writes attempted. -/
def writeCount (tr : List Event) : Nat := tr.countP Event.isWrite

/-- The number of lines successfully appended: the writes that succeeded. -/
def appendedCount (tr : List Event) : Nat :=
  tr.countP (fun e => e.isWrite && e.ok)

/-- Whether a `git add` invocation of the trace failed. -/
def addFailed (tr : List Event) : Bool :=
  tr.any (fun e => e.isGit "add" && !e.ok)

/-- The value of `repoDir` at line 60. -/
def repoDirOf (w : World) : String := Getenv w "HONEYDEW_REPO_DIR"

/-- The value of `repoDirTrimmed` at line 61. -/
def repoDirTrimmedOf (w : World) : String := TrimSpace (repoDirOf w)

/-- The value of `textFilePath` at line 79. -/
def textFilePathOf (w : World) : String := filepathJoin [repoDirOf w, "hello.txt"]

/-- The `gitCommitOption` built at lines 106-110. -/
def optionOf (w : World) : gitCommitOption :=
  ⟨textFilePathOf w, textFilePathOf w, repoDirTrimmedOf w⟩

/-- Repository validation (lines 60-78) succeeds: the trimmed path is not
empty, it is a directory, and the process can change into it. -/
def validationOk (w : World) : Prop :=
  repoDirTrimmedOf w ≠ "" ∧ w.statDir = StatResult.info true ∧ w.chdir = none

/-- The tracked file is opened (lines 79-97): either it exists and is opened
for appending, or it does not exist and is created. -/
def openOk (w : World) : Prop :=
  (w.statFile = none ∧ w.openFile OpenFlag.rdwrAppend = none) ∨
  (w.statFile = some OsErr.notExist ∧ w.openFile OpenFlag.rdwrCreate = none)

/-- Iteration `i` of the commit loop succeeds: the write, `git add` and
`git commit` all do. -/
def iterationOk (w : World) (i : Nat) : Prop :=
  w.write i = none ∧ w.gitAdd i = none ∧ w.gitCommit i = none

/-- The operations of a run up to and including the successful open of the
tracked file. -/
def setupEvents (w : World) : List Event :=
  [⟨Op.stat (repoDirTrimmedOf w), true⟩, ⟨Op.chdir (repoDirTrimmedOf w), true⟩,
    ⟨Op.stat (textFilePathOf w), w.statFile.isNone⟩,
    ⟨Op.openFile (textFilePathOf w)
      (if w.statFile.isNone then OpenFlag.rdwrAppend else OpenFlag.rdwrCreate) 0o600, true⟩]

/-- The operations of one successful iteration of the commit loop: the line
is appended, the tracked file is staged, the commit is made. -/
def iterationEvents (w : World) (ctx : gitContext) : List Event :=
  [⟨Op.writeString (textFilePathOf w) "random word\n", true⟩,
    ⟨Op.run { args := ["git", "add", textFilePathOf w], dir := repoDirTrimmedOf w,
              stdout := false, stderr := true }, true⟩,
    ⟨Op.run { args := ["git", "commit", "-m", "regular"], dir := repoDirTrimmedOf w,
              stdout := ctx.verbose, stderr := true }, true⟩]

/-- The `git push origin master:main` operation in the repository directory,
with its success flag. -/
def pushEvent (w : World) (ok : Bool) : Event :=
  ⟨Op.run { args := ["git", "push", "origin", "master:main"], dir := repoDirTrimmedOf w,
            stdout := false, stderr := true }, ok⟩

instance (w : World) : Decidable (validationOk w) := by
  unfold validationOk; infer_instance

instance (w : World) : Decidable (openOk w) := by
  unfold openOk; infer_instance

instance (w : World) (i : Nat) : Decidable (iterationOk w i) := by
  unfold iterationOk; infer_instance

/-- The text of an object whose member `x` opens `n` arrays, followed by
`rest`. -/
def deepMember (n : Nat) (rest : List Char) : List Char :=
  Char.ofNat 123 :: Char.ofNat 34 :: 'x' :: Char.ofNat 34 :: ':' ::
    (List.replicate n '[' ++ rest)

/-- Whether `json.Unmarshal` can store a JSON value into an `int` field:
`null`, which it ignores, or an integer literal inside the range of the
field. -/
def storableInt : JValue → Bool
  | JValue.null => true
  | JValue.number lit => (parseInt64 lit).isSome
  | _ => false

/-- A member of the stored object that selects `Num` and holds a value that
cannot be stored into it. -/
def badNumMember (m : List Char × JValue) : Bool :=
  foldsToNum m.1 && !storableInt m.2

/-- The integer a well-shaped object decodes to, starting from `n`: that of
its last member selecting `Num` with a number, `n` when there is none. -/
def lastNum : List (List Char × JValue) → Int → Int
  | [], n => n
  | (key, v) :: ms, n =>
    if foldsToNum key then
      match v with
      | JValue.number lit => lastNum ms ((parseInt64 lit).getD n)
      | _ => lastNum ms n
    else lastNum ms n

/-! ## Sample worlds -/

/-- An environment with `HOME` set and `HONEYDEW_REPO_DIR` as given. -/
def sampleEnv (repo : Option String) (key : String) : Option String :=
  if key = "HONEYDEW_REPO_DIR" then repo
  else if key = "HOME" then some "/root"
  else none

/-- A world in which every operation succeeds: the repository variable and
the stored configuration value are as given, the tracked file exists. -/
def calmWorld (repo : Option String) (value : Option String) : World where
  env := sampleEnv repo
  newClient := none
  kvGet := KVResult.pair value
  statDir := StatResult.info true
  chdir := none
  statFile := none
  openFile := fun _ => none
  write := fun _ => none
  gitAdd := fun _ => none
  gitCommit := fun _ => none
  gitPush := fun _ => none
  close := none

/-- A context as `_main` builds it, with the given `num`. -/
def sampleCtx (num : Int) : gitContext :=
  { num := num, verbose := true, tryForcePush := true }

/-- The repository is `/repo`, the stored value asks for two commits. -/
def worldTwoCommits : World := calmWorld (some "/repo") (some "\x7b\"num\": 2\x7d")

/-- As `worldTwoCommits`, but `git add` fails in the second iteration. -/
def worldAddFails : World :=
  { worldTwoCommits with gitAdd := fun i => if i = 1 then some (OsErr.other 128) else none }

/-- As `worldTwoCommits`, but the first write fails and so does the close. -/
def worldWriteAndCloseFail : World :=
  { worldTwoCommits with
    write := fun _ => some (OsErr.other 5)
    close := some (OsErr.other 5) }

/-- As `worldTwoCommits`, but closing the tracked file fails. -/
def worldCloseFails : World :=
  { worldTwoCommits with close := some (OsErr.other 5) }

/-- As `worldTwoCommits`, but both pushes are rejected. -/
def worldPushFails : World :=
  { worldTwoCommits with gitPush := fun _ => some (OsErr.other 1) }

/-- The repository is `/repo`, the stored value asks for no commit, and both
pushes are rejected. -/
def worldZeroPushFails : World :=
  { calmWorld (some "/repo") (some "\x7b\"num\": 0\x7d") with
    gitPush := fun _ => some (OsErr.other 1) }

/-- The stored value asks for no commit and everything succeeds. -/
def worldZero : World := calmWorld (some "/repo") (some "\x7b\"num\": 0\x7d")

/-- The repository variable holds white space only. -/
def worldBlankRepo : World := calmWorld (some " \t\n") (some "\x7b\"num\": 2\x7d")

/-- The stored value is the text `not-json`. -/
def worldNotJson : World := calmWorld (some "/repo") (some "not-json")

/-- The text of the empty JSON object. -/
def worldEmptyObject_value : String := "\x7b\x7d"

/-- The stored value is the empty JSON object. -/
def worldEmptyObject : World := calmWorld (some "/repo") (some worldEmptyObject_value)

/-- The repository variable is `/repo` followed by a space; `/repo` is a
directory, and nothing exists under the name `/repo ` with the space. -/
def worldTrailingSpace : World :=
  { calmWorld (some "/repo ") (some "\x7b\"num\": 1\x7d") with
    statFile := some OsErr.notExist
    openFile := fun _ => some OsErr.notExist }

/-- The key `config/honeydew` does not exist in the store: the lookup returns
a nil pair and no error. -/
def worldKeyAbsent : World := calmWorld (some "/repo") none

/-- The context `_main` builds at lines 140-144. -/
def mainCtx : gitContext := { num := 0, verbose := true, tryForcePush := true }

/-- A stored object exercising the decoder: keys in other letter cases, a
member that is not `num`, a `num` key nested inside it, the largest `int64`,
and a final `null`. -/
def worldRichObject_value : String :=
  "\x7b\"NUM\": 5, \"x\": [1, \x7b\"num\": \"s\"\x7d], \"num\": 9223372036854775807, \"Num\": null\x7d"

/-- The members of `worldRichObject_value` as `parseJSON` reads them. -/
def worldRichObject_members : List (List Char × JValue) :=
  [("NUM".data, JValue.number "5".data),
    ("x".data, JValue.array [JValue.number "1".data,
      JValue.object [("num".data, JValue.string "s".data)]]),
    ("num".data, JValue.number "9223372036854775807".data),
    ("Num".data, JValue.null)]

/-- The stored value is `worldRichObject_value`. -/
def worldRichObject : World := calmWorld (some "/repo") (some worldRichObject_value)

/-- The stored `num` is one above the largest `int64`. -/
def worldOutOfRange_value : String := "\x7b\"num\": 9223372036854775808\x7d"

/-- The member of `worldOutOfRange_value`. -/
def worldOutOfRange_members : List (List Char × JValue) :=
  [("num".data, JValue.number "9223372036854775808".data)]

/-- The stored value is `worldOutOfRange_value`. -/
def worldOutOfRange : World := calmWorld (some "/repo") (some worldOutOfRange_value)

/-- The stored value is a JSON array. -/
def worldArrayValue : World := calmWorld (some "/repo") (some "[1]")

/-- The stored value is an object cut short before its closing brace. -/
def worldTruncated : World := calmWorld (some "/repo") (some "\x7b\"num\": 1")

/-- The stored value is the JSON text `null`. -/
def worldNullValue : World := calmWorld (some "/repo") (some "null")

/-! ## Fuel

The scanners recurse on a fuel argument.  The lemmas of this section show that
the fuel each caller supplies is enough, so that a failure of `parseJSON` or a
result of `cleanChars` is never an artefact of the fuel. -/

theorem skipSpace_length_le (cs : List Char) : (skipSpace cs).length ≤ cs.length := by
  induction cs with
  | nil => simp [skipSpace]
  | cons c cs ih =>
    unfold skipSpace
    split
    · simp; omega
    · simp

theorem parseString_length (fuel : Nat) :
    ∀ (cs acc : List Char) (s r : List Char),
      parseString fuel cs acc = some (s, r) → r.length < cs.length := by
  induction fuel with
  | zero => intro cs acc s r h; simp [parseString] at h
  | succ fuel ih =>
    intro cs acc s r h
    cases cs with
    | nil => simp [parseString] at h
    | cons c rest =>
      unfold parseString at h
      split at h
      · simp at h; simp [h.2]
      · split at h
        · split at h
          · simp at h
          · split at h
            · split at h
              · split at h
                · have := ih _ _ _ _ h
                  simp at this ⊢
                  omega
                · simp at h
              · simp at h
            · split at h
              · have := ih _ _ _ _ h
                simp at this ⊢
                omega
              · simp at h
        · split at h
          · simp at h
          · have := ih _ _ _ _ h
            simp; omega

theorem stripWord_length (w : List Char) :
    ∀ (cs r : List Char), stripWord w cs = some r → r.length ≤ cs.length := by
  induction w with
  | nil => intro cs r h; cases cs <;> simp [stripWord] at h <;> simp [h]
  | cons x w ih =>
    intro cs r h
    cases cs with
    | nil => simp [stripWord] at h
    | cons c cs =>
      unfold stripWord at h
      split at h
      · have := ih _ _ h
        simp; omega
      · simp at h

theorem dropWhile_length_le (p : Char → Bool) (cs : List Char) :
    (cs.dropWhile p).length ≤ cs.length := by
  induction cs with
  | nil => simp
  | cons c cs ih =>
    simp only [List.dropWhile]
    split
    · simp; omega
    · simp

theorem scanSign_length (cs : List Char) : (scanSign cs).2.length ≤ cs.length := by
  unfold scanSign
  cases cs with
  | nil => simp
  | cons s r =>
    simp only
    split <;> simp

theorem scanExp_length (lit cs l r : List Char) (h : scanExp lit cs = some (l, r)) :
    r.length ≤ cs.length := by
  unfold scanExp at h
  cases cs with
  | nil => simp at h; simp [h.2]
  | cons e r1 =>
    dsimp only at h
    split at h
    · split at h
      · simp at h
      · simp only [Option.some.injEq, Prod.mk.injEq] at h
        rw [← h.2]
        have h1 := dropWhile_length_le isDigit (scanSign r1).2
        have h2 := scanSign_length r1
        simp only [List.length_cons]
        omega
    · simp only [Option.some.injEq, Prod.mk.injEq] at h
      simp [h.2]

theorem scanFrac_length (lit cs l r : List Char) (h : scanFrac lit cs = some (l, r)) :
    r.length ≤ cs.length := by
  unfold scanFrac at h
  cases cs with
  | nil => simp at h; simp [h.2]
  | cons d r1 =>
    dsimp only at h
    split at h
    · split at h
      · simp at h
      · have := scanExp_length _ _ _ _ h
        have hd := dropWhile_length_le isDigit r1
        simp only [List.length_cons]
        omega
    · exact scanExp_length _ _ _ _ h

theorem scanInt_length (sign cs l r : List Char) (h : scanInt sign cs = some (l, r)) :
    r.length < cs.length := by
  unfold scanInt at h
  split at h
  · simp at h
  · rename_i d r1
    split at h
    · have := scanFrac_length _ _ _ _ h
      simp; omega
    · split at h
      · have := scanFrac_length _ _ _ _ h
        have hd := dropWhile_length_le isDigit r1
        simp; omega
      · simp at h

theorem scanNumber_length (cs l r : List Char) (h : scanNumber cs = some (l, r)) :
    r.length < cs.length := by
  unfold scanNumber at h
  split at h
  · simp at h
  · rename_i c r1
    split at h
    · have := scanInt_length _ _ _ _ h
      simp; omega
    · exact scanInt_length _ _ _ _ h

/-- Each of the three parsers consumes input when it succeeds. -/
theorem parse_length (fuel : Nat) :
    (∀ depth cs v r, parseValue fuel depth cs = some (v, r) → r.length < cs.length) ∧
    (∀ depth cs vs r, parseElems fuel depth cs = some (vs, r) → r.length < cs.length) ∧
    (∀ depth cs ms r, parseMembers fuel depth cs = some (ms, r) → r.length < cs.length) := by
  induction fuel with
  | zero => simp [parseValue, parseElems, parseMembers]
  | succ fuel ih =>
    obtain ⟨ihV, ihE, ihM⟩ := ih
    refine ⟨?_, ?_, ?_⟩
    · intro depth cs v r h
      cases cs with
      | nil => simp [parseValue] at h
      | cons c rest =>
        unfold parseValue at h
        have hle := skipSpace_length_le rest
        split at h
        · by_cases hdp : maxNestingDepth ≤ depth
          · rw [if_pos hdp] at h
            exact absurd h (by simp)
          rw [if_neg hdp] at h
          rcases hs : skipSpace rest with _ | ⟨d, r0⟩
          · simp [hs] at h
          · rw [hs] at hle h
            dsimp only at h
            split at h
            · simp only [Option.some.injEq, Prod.mk.injEq] at h
              obtain ⟨_, rfl⟩ := h
              simp only [List.length_cons] at hle ⊢
              omega
            · rcases hm : parseMembers fuel (depth + 1) (d :: r0) with _ | ⟨ms, r1⟩
              · simp [hm] at h
              · simp only [hm, Option.some.injEq, Prod.mk.injEq] at h
                obtain ⟨_, rfl⟩ := h
                have := ihM _ _ _ _ hm
                simp only [List.length_cons] at this hle ⊢
                omega
        · split at h
          · by_cases hdp : maxNestingDepth ≤ depth
            · rw [if_pos hdp] at h
              exact absurd h (by simp)
            rw [if_neg hdp] at h
            rcases hs : skipSpace rest with _ | ⟨d, r0⟩
            · simp [hs] at h
            · rw [hs] at hle h
              dsimp only at h
              split at h
              · simp only [Option.some.injEq, Prod.mk.injEq] at h
                obtain ⟨_, rfl⟩ := h
                simp only [List.length_cons] at hle ⊢
                omega
              · rcases hm : parseElems fuel (depth + 1) (d :: r0) with _ | ⟨vs, r1⟩
                · simp [hm] at h
                · simp only [hm, Option.some.injEq, Prod.mk.injEq] at h
                  obtain ⟨_, rfl⟩ := h
                  have := ihE _ _ _ _ hm
                  simp only [List.length_cons] at this hle ⊢
                  omega
          · split at h
            · rcases hp : parseString rest.length rest [] with _ | ⟨s, r1⟩
              · simp [hp] at h
              · simp only [hp, Option.some.injEq, Prod.mk.injEq] at h
                obtain ⟨_, rfl⟩ := h
                have := parseString_length _ _ _ _ _ hp
                simp only [List.length_cons]
                omega
            · split at h
              · rcases hp : scanNumber (c :: rest) with _ | ⟨lit, r1⟩
                · simp [hp] at h
                · simp only [hp, Option.some.injEq, Prod.mk.injEq] at h
                  obtain ⟨_, rfl⟩ := h
                  exact scanNumber_length _ _ _ hp
              · split at h
                · rcases hp : stripWord ['r', 'u', 'e'] rest with _ | r1
                  · simp [hp] at h
                  · simp only [hp, Option.some.injEq, Prod.mk.injEq] at h
                    obtain ⟨_, rfl⟩ := h
                    have := stripWord_length _ _ _ hp
                    simp only [List.length_cons]
                    omega
                · split at h
                  · rcases hp : stripWord ['a', 'l', 's', 'e'] rest with _ | r1
                    · simp [hp] at h
                    · simp only [hp, Option.some.injEq, Prod.mk.injEq] at h
                      obtain ⟨_, rfl⟩ := h
                      have := stripWord_length _ _ _ hp
                      simp only [List.length_cons]
                      omega
                  · split at h
                    · rcases hp : stripWord ['u', 'l', 'l'] rest with _ | r1
                      · simp [hp] at h
                      · simp only [hp, Option.some.injEq, Prod.mk.injEq] at h
                        obtain ⟨_, rfl⟩ := h
                        have := stripWord_length _ _ _ hp
                        simp only [List.length_cons]
                        omega
                    · simp at h
    · intro depth cs vs r h
      unfold parseElems at h
      rcases hv : parseValue fuel depth cs with _ | ⟨v, r0⟩
      · simp [hv] at h
      · simp only [hv] at h
        have h0 := ihV _ _ _ _ hv
        have hle := skipSpace_length_le r0
        rcases hs : skipSpace r0 with _ | ⟨d, r1⟩
        · simp [hs] at h
        · rw [hs] at hle h
          dsimp only at h
          split at h
          · have hle2 := skipSpace_length_le r1
            rcases he : parseElems fuel depth (skipSpace r1) with _ | ⟨vs1, r2⟩
            · simp [he] at h
            · simp only [he, Option.some.injEq, Prod.mk.injEq] at h
              obtain ⟨_, rfl⟩ := h
              have := ihE _ _ _ _ he
              simp only [List.length_cons] at hle
              omega
          · split at h
            · simp only [Option.some.injEq, Prod.mk.injEq] at h
              obtain ⟨_, rfl⟩ := h
              simp only [List.length_cons] at hle
              omega
            · simp at h
    · intro depth cs ms r h
      cases cs with
      | nil => simp [parseMembers] at h
      | cons q cs =>
        unfold parseMembers at h
        split at h
        · rcases hp : parseString cs.length cs [] with _ | ⟨key, r0⟩
          · simp [hp] at h
          · simp only [hp] at h
            have h0 := parseString_length _ _ _ _ _ hp
            have hle := skipSpace_length_le r0
            rcases hs : skipSpace r0 with _ | ⟨colon, r1⟩
            · simp [hs] at h
            · rw [hs] at hle h
              dsimp only at h
              split at h
              · have hle1 := skipSpace_length_le r1
                rcases hv : parseValue fuel depth (skipSpace r1) with _ | ⟨v, r2⟩
                · simp [hv] at h
                · simp only [hv] at h
                  have h2 := ihV _ _ _ _ hv
                  have hle2 := skipSpace_length_le r2
                  rcases hs2 : skipSpace r2 with _ | ⟨d, r3⟩
                  · simp [hs2] at h
                  · rw [hs2] at hle2 h
                    dsimp only at h
                    simp only [List.length_cons] at hle hle2 ⊢
                    split at h
                    · have hle3 := skipSpace_length_le r3
                      rcases hm : parseMembers fuel depth (skipSpace r3) with _ | ⟨ms1, r4⟩
                      · simp [hm] at h
                      · simp only [hm, Option.some.injEq, Prod.mk.injEq] at h
                        obtain ⟨_, rfl⟩ := h
                        have := ihM _ _ _ _ hm
                        omega
                    · split at h
                      · simp only [Option.some.injEq, Prod.mk.injEq] at h
                        obtain ⟨_, rfl⟩ := h
                        omega
                      · simp at h
              · simp at h
        · simp at h

/-- Fuel is only needed for the input consumed: a successful parse is
repeated by any amount of fuel that is at least the number of characters it
consumed. -/
theorem parse_fuel_sufficient (fuel : Nat) :
    (∀ depth cs v r, parseValue fuel depth cs = some (v, r) →
      ∀ f, cs.length - r.length ≤ f → parseValue f depth cs = some (v, r)) ∧
    (∀ depth cs vs r, parseElems fuel depth cs = some (vs, r) →
      ∀ f, cs.length - r.length ≤ f → parseElems f depth cs = some (vs, r)) ∧
    (∀ depth cs ms r, parseMembers fuel depth cs = some (ms, r) →
      ∀ f, cs.length - r.length ≤ f → parseMembers f depth cs = some (ms, r)) := by
  induction fuel with
  | zero => simp [parseValue, parseElems, parseMembers]
  | succ fuel ih =>
    obtain ⟨ihV, ihE, ihM⟩ := ih
    obtain ⟨lenV, lenE, lenM⟩ := parse_length fuel
    refine ⟨?_, ?_, ?_⟩
    · intro depth cs v r h f hf
      have hlt := (parse_length (fuel + 1)).1 depth cs v r h
      cases f with
      | zero => omega
      | succ f =>
        cases cs with
        | nil => simp [parseValue] at h
        | cons c rest =>
          simp only [List.length_cons] at hf
          have hle := skipSpace_length_le rest
          rw [parseValue] at h ⊢
          by_cases h1 : c.toNat = 123
          · rw [if_pos h1] at h ⊢
            by_cases hdp : maxNestingDepth ≤ depth
            · rw [if_pos hdp] at h
              exact absurd h (by simp)
            rw [if_neg hdp] at h ⊢
            rcases hs : skipSpace rest with _ | ⟨d, r0⟩
            · simp [hs] at h
            · rw [hs] at hle h
              simp only [List.length_cons] at hle
              dsimp only at h ⊢
              by_cases h2 : d.toNat = 125
              · rw [if_pos h2] at h ⊢
                exact h
              · rw [if_neg h2] at h ⊢
                rcases hm : parseMembers fuel (depth + 1) (d :: r0) with _ | ⟨ms, r1⟩
                · simp [hm] at h
                · simp only [hm, Option.some.injEq, Prod.mk.injEq] at h
                  obtain ⟨rfl, rfl⟩ := h
                  rw [ihM _ _ _ _ hm f (by simp only [List.length_cons]; omega)]
          · rw [if_neg h1] at h ⊢
            by_cases h2 : c = '['
            · rw [if_pos h2] at h ⊢
              by_cases hdp : maxNestingDepth ≤ depth
              · rw [if_pos hdp] at h
                exact absurd h (by simp)
              rw [if_neg hdp] at h ⊢
              rcases hs : skipSpace rest with _ | ⟨d, r0⟩
              · simp [hs] at h
              · rw [hs] at hle h
                simp only [List.length_cons] at hle
                dsimp only at h ⊢
                by_cases h3 : d = ']'
                · rw [if_pos h3] at h ⊢
                  exact h
                · rw [if_neg h3] at h ⊢
                  rcases hm : parseElems fuel (depth + 1) (d :: r0) with _ | ⟨vs, r1⟩
                  · simp [hm] at h
                  · simp only [hm, Option.some.injEq, Prod.mk.injEq] at h
                    obtain ⟨rfl, rfl⟩ := h
                    rw [ihE _ _ _ _ hm f (by simp only [List.length_cons]; omega)]
            · rw [if_neg h2] at h ⊢
              exact h
    · intro depth cs vs r h f hf
      have hlt := (parse_length (fuel + 1)).2.1 depth cs vs r h
      cases f with
      | zero => omega
      | succ f =>
        rw [parseElems] at h ⊢
        rcases hv : parseValue fuel depth cs with _ | ⟨v, r0⟩
        · simp [hv] at h
        · simp only [hv] at h
          have h0 := lenV _ _ _ _ hv
          have hle := skipSpace_length_le r0
          rcases hs : skipSpace r0 with _ | ⟨d, r1⟩
          · simp [hs] at h
          · rw [hs] at hle h
            simp only [List.length_cons] at hle
            dsimp only at h
            by_cases h1 : d = ','
            · rw [if_pos h1] at h
              have hle1 := skipSpace_length_le r1
              rcases he : parseElems fuel depth (skipSpace r1) with _ | ⟨vs1, r2⟩
              · simp [he] at h
              · simp only [he, Option.some.injEq, Prod.mk.injEq] at h
                obtain ⟨rfl, rfl⟩ := h
                have h2 := lenE _ _ _ _ he
                rw [ihV _ _ _ _ hv f (by omega)]
                dsimp only
                rw [hs]
                dsimp only
                rw [if_pos h1, ihE _ _ _ _ he f (by omega)]
            · rw [if_neg h1] at h
              by_cases h2 : d = ']'
              · rw [if_pos h2] at h
                simp only [Option.some.injEq, Prod.mk.injEq] at h
                obtain ⟨rfl, rfl⟩ := h
                rw [ihV _ _ _ _ hv f (by omega)]
                dsimp only
                rw [hs]
                dsimp only
                rw [if_neg h1, if_pos h2]
              · rw [if_neg h2] at h
                simp at h
    · intro depth cs ms r h f hf
      have hlt := (parse_length (fuel + 1)).2.2 depth cs ms r h
      cases f with
      | zero => omega
      | succ f =>
        cases cs with
        | nil => simp [parseMembers] at h
        | cons q cs =>
          simp only [List.length_cons] at hf
          rw [parseMembers] at h ⊢
          by_cases hq : q.toNat = 34
          · rw [if_pos hq] at h ⊢
            rcases hp : parseString cs.length cs [] with _ | ⟨key, r0⟩
            · simp [hp] at h
            · simp only [hp] at h ⊢
              have h0 := parseString_length _ _ _ _ _ hp
              have hle := skipSpace_length_le r0
              rcases hs : skipSpace r0 with _ | ⟨colon, r1⟩
              · simp [hs] at h
              · rw [hs] at hle h
                simp only [List.length_cons] at hle
                dsimp only at h ⊢
                by_cases hc : colon = ':'
                · rw [if_pos hc] at h ⊢
                  have hle1 := skipSpace_length_le r1
                  rcases hv : parseValue fuel depth (skipSpace r1) with _ | ⟨v, r2⟩
                  · simp [hv] at h
                  · simp only [hv] at h
                    have h2 := lenV _ _ _ _ hv
                    have hle2 := skipSpace_length_le r2
                    rcases hs2 : skipSpace r2 with _ | ⟨d, r3⟩
                    · simp [hs2] at h
                    · rw [hs2] at hle2 h
                      simp only [List.length_cons] at hle2
                      dsimp only at h
                      by_cases hd : d = ','
                      · rw [if_pos hd] at h
                        have hle3 := skipSpace_length_le r3
                        rcases hm : parseMembers fuel depth (skipSpace r3) with _ | ⟨ms1, r4⟩
                        · simp [hm] at h
                        · simp only [hm, Option.some.injEq, Prod.mk.injEq] at h
                          obtain ⟨rfl, rfl⟩ := h
                          have h4 := lenM _ _ _ _ hm
                          rw [ihV _ _ _ _ hv f (by omega)]
                          dsimp only
                          rw [hs2]
                          dsimp only
                          rw [if_pos hd, ihM _ _ _ _ hm f (by omega)]
                      · rw [if_neg hd] at h
                        by_cases hd2 : d.toNat = 125
                        · rw [if_pos hd2] at h
                          simp only [Option.some.injEq, Prod.mk.injEq] at h
                          obtain ⟨rfl, rfl⟩ := h
                          rw [ihV _ _ _ _ hv f (by omega)]
                          dsimp only
                          rw [hs2]
                          dsimp only
                          rw [if_neg hd, if_pos hd2]
                        · rw [if_neg hd2] at h
                          simp at h
                · rw [if_neg hc] at h
                  simp at h
          · rw [if_neg hq] at h
            simp at h

/-- The fuel `parseJSON` gives `parseValue` is enough: what any amount of
fuel can parse, that amount parses too, so `parseJSON` never rejects a text
for want of fuel. -/
theorem parseValue_fuel_adequate (data : List Char) (fuel : Nat) (v : JValue)
    (r : List Char) (h : parseValue fuel 0 (skipSpace data) = some (v, r)) :
    parseValue (data.length + 1) 0 (skipSpace data) = some (v, r) := by
  have hle := skipSpace_length_le data
  exact (parse_fuel_sufficient fuel).1 _ _ _ _ h _ (by omega)

/-- At the nesting limit no further array or object can be opened. -/
theorem parseValue_depth_limit (fuel depth : Nat) (c : Char) (rest : List Char)
    (hd : maxNestingDepth ≤ depth) (hc : c.toNat = 123 ∨ c = '[') :
    parseValue fuel depth (c :: rest) = none := by
  cases fuel with
  | zero => simp [parseValue]
  | succ fuel =>
    rw [parseValue]
    rcases hc with hc | hc
    · rw [if_pos hc, if_pos hd]
    · have h1 : ¬ c.toNat = 123 := by rw [hc]; decide
      rw [if_neg h1, if_pos hc, if_pos hd]

/-- Arrays nested beyond the limit are rejected, whatever follows and
whatever the fuel: with `depth` containers open, `k + 1` opening brackets
are too many as soon as `depth + k + 1` exceeds `maxNestingDepth`. -/
theorem parseValue_nested_arrays_rejected (rest : List Char) (k : Nat) :
    ∀ fuel depth, maxNestingDepth < depth + (k + 1) →
      parseValue fuel depth (List.replicate (k + 1) '[' ++ rest) = none := by
  induction k with
  | zero =>
    intro fuel depth h
    exact parseValue_depth_limit fuel depth '[' rest (by omega) (Or.inr rfl)
  | succ k ih =>
    intro fuel depth h
    by_cases hd : maxNestingDepth ≤ depth
    · exact parseValue_depth_limit fuel depth '[' _ hd (Or.inr rfl)
    · cases fuel with
      | zero => simp [parseValue]
      | succ fuel =>
        have hin : List.replicate (k + 1 + 1) '[' ++ rest =
            '[' :: '[' :: (List.replicate k '[' ++ rest) := by
          simp [List.replicate_succ]
        have hin2 : '[' :: (List.replicate k '[' ++ rest) =
            List.replicate (k + 1) '[' ++ rest := by
          simp [List.replicate_succ]
        have h1 : ¬ ('['.toNat = 123) := by decide
        have h2 : ¬ ('[' = ']') := by decide
        have hs : skipSpace ('[' :: (List.replicate k '[' ++ rest)) =
            '[' :: (List.replicate k '[' ++ rest) := by
          rw [skipSpace, if_neg (by decide)]
        rw [hin, parseValue, if_neg h1, if_pos rfl, if_neg hd, hs]
        dsimp only
        rw [if_neg h2]
        cases fuel with
        | zero => simp [parseElems]
        | succ fuel =>
          rw [parseElems, hin2, ih fuel (depth + 1) (by omega)]

/-- A text that opens more than `maxNestingDepth` arrays is not valid for
`parseJSON`, whatever follows the brackets. -/
theorem parseJSON_too_deep (rest : List Char) (n : Nat) (hn : maxNestingDepth < n) :
    parseJSON (List.replicate n '[' ++ rest) = none := by
  cases n with
  | zero => exact absurd hn (Nat.not_lt_zero _)
  | succ k =>
    have hs : skipSpace (List.replicate (k + 1) '[' ++ rest) =
        List.replicate (k + 1) '[' ++ rest := by
      rw [List.replicate_succ, List.cons_append, skipSpace, if_neg (by decide)]
    unfold parseJSON
    rw [hs, parseValue_nested_arrays_rejected rest k _ 0 (by omega)]

/-- An object whose member opens `maxNestingDepth` arrays or more is nested
too deep for `parseJSON`, whatever follows. -/
theorem parseJSON_deep_member (rest : List Char) (n : Nat) (hn : maxNestingDepth ≤ n) :
    parseJSON (deepMember n rest) = none := by
  cases n with
  | zero => exact absurd hn (by decide)
  | succ k =>
    have hdeep : ∀ fuel, parseValue fuel 1 (List.replicate (k + 1) '[' ++ rest) = none :=
      fun fuel => parseValue_nested_arrays_rejected rest k fuel 1 (by omega)
    have hsT : skipSpace (List.replicate (k + 1) '[' ++ rest) =
        List.replicate (k + 1) '[' ++ rest := by
      rw [List.replicate_succ, List.cons_append, skipSpace, if_neg (by decide)]
    have hmem : ∀ fuel, parseMembers fuel 1
        (Char.ofNat 34 :: 'x' :: Char.ofNat 34 :: ':' ::
          (List.replicate (k + 1) '[' ++ rest)) = none := by
      intro fuel
      cases fuel with
      | zero => simp [parseMembers]
      | succ fuel =>
        have hstr : parseString
            ('x' :: Char.ofNat 34 :: ':' :: (List.replicate (k + 1) '[' ++ rest)).length
            ('x' :: Char.ofNat 34 :: ':' :: (List.replicate (k + 1) '[' ++ rest)) [] =
            some (['x'], ':' :: (List.replicate (k + 1) '[' ++ rest)) := by
          simp only [List.length_cons]
          unfold parseString
          rw [if_neg (by decide), if_neg (by decide), if_neg (by decide)]
          unfold parseString
          rw [if_pos (by decide)]
          rfl
        have hcolon : skipSpace (':' :: (List.replicate (k + 1) '[' ++ rest)) =
            ':' :: (List.replicate (k + 1) '[' ++ rest) := by
          rw [skipSpace, if_neg (by decide)]
        rw [parseMembers, if_pos (by decide), hstr]
        dsimp only
        rw [hcolon]
        dsimp only
        rw [if_pos rfl, hsT, hdeep]
    unfold parseJSON deepMember
    have hs0 : skipSpace (Char.ofNat 123 :: Char.ofNat 34 :: 'x' :: Char.ofNat 34 :: ':' ::
        (List.replicate (k + 1) '[' ++ rest)) =
        Char.ofNat 123 :: Char.ofNat 34 :: 'x' :: Char.ofNat 34 :: ':' ::
          (List.replicate (k + 1) '[' ++ rest) := by
      rw [skipSpace, if_neg (by decide)]
    have hs1 : skipSpace (Char.ofNat 34 :: 'x' :: Char.ofNat 34 :: ':' ::
        (List.replicate (k + 1) '[' ++ rest)) =
        Char.ofNat 34 :: 'x' :: Char.ofNat 34 :: ':' ::
          (List.replicate (k + 1) '[' ++ rest) := by
      rw [skipSpace, if_neg (by decide)]
    rw [hs0, List.length_cons, parseValue, if_pos (by decide), if_neg (by decide), hs1]
    dsimp only
    rw [if_neg (by decide), hmem]

/-- The fuel given to `parseString`, the length of its input, is enough: a
scan that succeeds with some fuel succeeds with any fuel at least the length
of the input. -/
theorem parseString_fuel_adequate (fuel : Nat) :
    ∀ (cs acc : List Char) (x : List Char × List Char),
      parseString fuel cs acc = some x →
        ∀ f, cs.length ≤ f → parseString f cs acc = some x := by
  induction fuel with
  | zero => intro cs acc x h; simp [parseString] at h
  | succ fuel ih =>
    intro cs acc x h f hf
    cases cs with
    | nil => simp [parseString] at h
    | cons c rest =>
      simp only [List.length_cons] at hf
      cases f with
      | zero => omega
      | succ f =>
        unfold parseString at h ⊢
        by_cases h1 : c.toNat = 34
        · rw [if_pos h1] at h ⊢
          exact h
        · rw [if_neg h1] at h ⊢
          by_cases h2 : c.toNat = 92
          · rw [if_pos h2] at h ⊢
            cases rest with
            | nil => simp at h
            | cons e rest1 =>
              simp only [List.length_cons] at hf
              dsimp only at h ⊢
              by_cases h3 : e = 'u'
              · rw [if_pos h3] at h ⊢
                rcases rest1 with _ | ⟨a1, _ | ⟨a2, _ | ⟨a3, _ | ⟨a4, rest2⟩⟩⟩⟩
                · simp at h
                · simp at h
                · simp at h
                · simp at h
                · dsimp only at h ⊢
                  simp only [List.length_cons] at hf
                  cases hx1 : hexVal a1 <;> cases hx2 : hexVal a2 <;>
                    cases hx3 : hexVal a3 <;> cases hx4 : hexVal a4 <;>
                    simp only [hx1, hx2, hx3, hx4] at h ⊢ <;>
                    first
                      | exact ih _ _ _ h f (by omega)
                      | exact absurd h (by simp)
              · rw [if_neg h3] at h ⊢
                cases hesc : escapeChar e with
                | none => simp [hesc] at h
                | some ch =>
                  simp only [hesc] at h ⊢
                  exact ih _ _ _ h f (by omega)
          · rw [if_neg h2] at h ⊢
            by_cases h3 : c.toNat < 32
            · rw [if_pos h3] at h
              simp at h
            · rw [if_neg h3] at h ⊢
              exact ih _ _ _ h f (by omega)

/-- The fuel given to `cleanLoop`, the length of the path, is enough: more
fuel does not change the result. -/
theorem cleanLoop_fuel_succ (rooted : Bool) (fuel : Nat) :
    ∀ (path out : List Char) (dotdot : Nat), path.length ≤ fuel →
      cleanLoop rooted (fuel + 1) path out dotdot = cleanLoop rooted fuel path out dotdot := by
  induction fuel with
  | zero =>
    intro path out dotdot h
    cases path with
    | nil => simp [cleanLoop]
    | cons c rest => simp at h
  | succ fuel ih =>
    intro path out dotdot h
    cases path with
    | nil => simp [cleanLoop]
    | cons c rest =>
      simp only [List.length_cons] at h
      have e1 : ∀ o d, cleanLoop rooted (fuel + 1) rest o d = cleanLoop rooted fuel rest o d :=
        fun o d => ih rest o d (by omega)
      have e2 : ∀ o d, cleanLoop rooted (fuel + 1) rest.tail o d =
          cleanLoop rooted fuel rest.tail o d :=
        fun o d => ih rest.tail o d (by simp only [List.length_tail]; omega)
      have e3 : ∀ o d, cleanLoop rooted (fuel + 1) (rest.dropWhile (fun x => x ≠ '/')) o d =
          cleanLoop rooted fuel (rest.dropWhile (fun x => x ≠ '/')) o d :=
        fun o d => ih _ o d (by have := dropWhile_length_le (fun x => x ≠ '/') rest; omega)
      rw [cleanLoop, cleanLoop]
      by_cases hc : c = '/'
      · rw [if_pos hc, if_pos hc, e1]
      · rw [if_neg hc, if_neg hc]
        have hd : (c :: rest).dropWhile (fun x => x ≠ '/') =
            rest.dropWhile (fun x => x ≠ '/') := by
          simp [List.dropWhile_cons, hc]
        simp only [hd, e1, e2, e3]

/-! ## Auxiliary lemmas -/

theorem trimLeft_eq_nil_of_forall_isSpace (cs : List Char)
    (h : ∀ c ∈ cs, isSpace c = true) : trimLeft cs = [] := by
  induction cs with
  | nil => rfl
  | cons c cs ih =>
    have hc : isSpace c = true := h c (List.mem_cons_self c cs)
    have hcs : ∀ d ∈ cs, isSpace d = true := fun d hd => h d (List.mem_cons_of_mem c hd)
    simp [trimLeft, hc, ih hcs]

theorem trimSpaceChars_eq_nil_of_forall_isSpace (cs : List Char)
    (h : ∀ c ∈ cs, isSpace c = true) : trimSpaceChars cs = [] := by
  simp [trimSpaceChars, trimLeft_eq_nil_of_forall_isSpace cs h, trimLeft]

theorem TrimSpace_eq_empty_of_forall_isSpace (s : String)
    (h : ∀ c ∈ s.data, isSpace c = true) : TrimSpace s = "" := by
  unfold TrimSpace
  rw [trimSpaceChars_eq_nil_of_forall_isSpace s.data h]

/-- When validation and the open succeed, `execGit` is the body between the
open and the deferred close. -/
theorem execGit_of_setup (w : World) (g : gitContext)
    (hval : validationOk w) (hopen : openOk w) :
    execGit (some g) w =
      deferredClose w (textFilePathOf w) (setupEvents w)
        (execGitBody g w (textFilePathOf w) (repoDirTrimmedOf w)) := by
  obtain ⟨h1, h2, h3⟩ := hval
  unfold repoDirTrimmedOf repoDirOf at h1
  rcases hopen with ⟨a, b⟩ | ⟨a, b⟩ <;>
    simp [execGit, h1, h2, h3, a, b, setupEvents, textFilePathOf, repoDirTrimmedOf, repoDirOf]

/-- A successful iteration returns no error and performs the three
operations. -/
theorem gitCommit_of_iterationOk (w : World) (g : gitContext) (i : Nat)
    (h : iterationOk w i) :
    gitCommit (optionOf w) g w i = (none, iterationEvents w g) := by
  obtain ⟨h1, h2, h3⟩ := h
  simp [gitCommit, h1, h2, h3, iterationEvents, optionOf, writeOp, gitAddCommand,
    gitCommitCommand]

/-- A run of the loop in which every iteration succeeds. -/
theorem commitLoop_of_all_ok (w : World) (g : gitContext) (n : Nat) :
    ∀ i, (∀ j, i ≤ j → j < i + n → iterationOk w j) →
      commitLoop (optionOf w) g w n i =
        (none, (List.replicate n (iterationEvents w g)).flatten) := by
  induction n with
  | zero => intro i _; rfl
  | succ n ih =>
    intro i h
    have h0 : iterationOk w i := h i (Nat.le_refl i) (by omega)
    have hrest : ∀ j, i + 1 ≤ j → j < i + 1 + n → iterationOk w j :=
      fun j hj1 hj2 => h j (by omega) (by omega)
    simp [commitLoop, gitCommit_of_iterationOk w g i h0, ih (i + 1) hrest,
      List.replicate_succ]

/-- A run of the loop whose first `m` iterations succeed and whose next one
returns an error: the loop stops there. -/
theorem commitLoop_of_first_failure (w : World) (g : gitContext) (m more : Nat) :
    ∀ i, (∀ j, i ≤ j → j < i + m → iterationOk w j) →
      (gitCommit (optionOf w) g w (i + m)).1 ≠ none →
      commitLoop (optionOf w) g w (m + 1 + more) i =
        ((gitCommit (optionOf w) g w (i + m)).1,
          (List.replicate m (iterationEvents w g)).flatten ++
            (gitCommit (optionOf w) g w (i + m)).2) := by
  induction m with
  | zero =>
    intro i _ hfail
    simp only [Nat.add_zero] at hfail ⊢
    have hshape : 0 + 1 + more = more + 1 := by omega
    rw [hshape]
    rcases hgc : gitCommit (optionOf w) g w i with ⟨e, evs⟩
    rw [hgc] at hfail
    cases e with
    | none => exact absurd rfl hfail
    | some err => simp [commitLoop, hgc]
  | succ m ih =>
    intro i h hfail
    have h0 : iterationOk w i := h i (Nat.le_refl i) (by omega)
    have hrest : ∀ j, i + 1 ≤ j → j < i + 1 + m → iterationOk w j :=
      fun j hj1 hj2 => h j (by omega) (by omega)
    have hidx : i + (m + 1) = i + 1 + m := by omega
    rw [hidx] at hfail
    have hstep := ih (i + 1) hrest hfail
    have hshape : m + 1 + 1 + more = (m + 1 + more) + 1 := by omega
    rw [hshape, commitLoop, gitCommit_of_iterationOk w g i h0]
    simp [hstep, hidx, List.replicate_succ]

/-- The number of matching events in `n` copies of a block. -/
theorem countP_flatten_replicate (p : Event → Bool) (n : Nat) (l : List Event) :
    ((List.replicate n l).flatten).countP p = n * l.countP p := by
  induction n with
  | zero => simp
  | succ n ih => simp [List.replicate_succ, ih, Nat.succ_mul, Nat.add_comm]

/-- The body of `execGit` when all `N` iterations succeed. -/
theorem execGitBody_of_all_ok (w : World) (g : gitContext) (N : Nat)
    (hnum : g.num.toNat = N) (hiter : ∀ i, i < N → iterationOk w i) :
    execGitBody g w (textFilePathOf w) (repoDirTrimmedOf w) =
      ((pushStage g w (repoDirTrimmedOf w)).1,
        (List.replicate N (iterationEvents w g)).flatten ++
          (pushStage g w (repoDirTrimmedOf w)).2) := by
  have hloop := commitLoop_of_all_ok w g N 0 (fun j _ hj => hiter j (by omega))
  unfold optionOf at hloop
  simp [execGitBody, hnum, hloop]

/-- The push stage always starts with the push. -/
theorem pushStage_head (w : World) (g : gitContext) :
    ∃ rest, (pushStage g w (repoDirTrimmedOf w)).2 =
      pushEvent w (w.gitPush 0).isNone :: rest := by
  unfold pushStage pushEvent gitPushCommand
  cases h0 : w.gitPush 0 <;> cases h1 : w.gitPush 1 <;> cases hf : g.tryForcePush <;> simp

/-! ## The claims -/

/-- C1: when validation, the open and all `N > 0` iterations succeed, the
operations between the open and the first push are exactly `N` repetitions
of append the line, `git add` the tracked file, `git commit -m regular`; so
`N` lines are appended and `N` commits invoked, and there is no push before
the `N`-th commit. -/
theorem C1_commit_sequence (w : World) (g : gitContext) (N : Nat) (_hN : 0 < N)
    (hnum : g.num = (N : Int)) (hval : validationOk w) (hopen : openOk w)
    (hiter : ∀ i, i < N → iterationOk w i) :
    ∃ rest : List Event,
      (execGit (some g) w).trace =
        setupEvents w ++ (List.replicate N (iterationEvents w g)).flatten ++
          pushEvent w (w.gitPush 0).isNone :: rest ∧
      pushCount (setupEvents w ++ (List.replicate N (iterationEvents w g)).flatten) = 0 ∧
      appendedCount (execGit (some g) w).trace = N ∧
      commitCount (execGit (some g) w).trace = N := by
  obtain ⟨rest, hrest⟩ := pushStage_head w g
  have hbody := execGitBody_of_all_ok w g N (by simp [hnum]) hiter
  have htrace : (execGit (some g) w).trace =
      setupEvents w ++ (List.replicate N (iterationEvents w g)).flatten ++
        pushEvent w (w.gitPush 0).isNone :: (rest ++ closeEvents w (textFilePathOf w)) := by
    rw [execGit_of_setup w g hval hopen, hbody]
    unfold deferredClose
    cases w.close <;> simp [hrest]
  refine ⟨rest ++ closeEvents w (textFilePathOf w), htrace, ?_, ?_, ?_⟩
  · simp [pushCount, countP_flatten_replicate, setupEvents, iterationEvents, Event.isGit]
  · rw [execGit_of_setup w g hval hopen, hbody]
    unfold deferredClose pushStage closeEvents
    cases w.close <;> cases h0 : w.gitPush 0 <;> cases h1 : w.gitPush 1 <;>
      cases hf : g.tryForcePush <;>
      simp [appendedCount, countP_flatten_replicate, setupEvents, iterationEvents,
        Event.isWrite, gitPushCommand]
  · rw [execGit_of_setup w g hval hopen, hbody]
    unfold deferredClose pushStage closeEvents
    cases w.close <;> cases h0 : w.gitPush 0 <;> cases h1 : w.gitPush 1 <;>
      cases hf : g.tryForcePush <;>
      simp [commitCount, countP_flatten_replicate, setupEvents, iterationEvents,
        Event.isGit, gitPushCommand]

/-- Witness for C1: two commits in `/repo`, everything succeeds. -/
theorem C1_commit_sequence_witness :
    ∃ rest : List Event,
      (execGit (some (sampleCtx 2)) worldTwoCommits).trace =
        setupEvents worldTwoCommits ++
          (List.replicate 2 (iterationEvents worldTwoCommits (sampleCtx 2))).flatten ++
          pushEvent worldTwoCommits (worldTwoCommits.gitPush 0).isNone :: rest ∧
      pushCount (setupEvents worldTwoCommits ++
        (List.replicate 2 (iterationEvents worldTwoCommits (sampleCtx 2))).flatten) = 0 ∧
      appendedCount (execGit (some (sampleCtx 2)) worldTwoCommits).trace = 2 ∧
      commitCount (execGit (some (sampleCtx 2)) worldTwoCommits).trace = 2 :=
  C1_commit_sequence worldTwoCommits (sampleCtx 2) 2 (by decide) (by decide) (by decide)
    (by decide) (by decide)

/-- Counterexample to C2 as stated: the write of the first iteration fails
and so does the deferred close; the process exits with status 1 and `execGit`
does not return the iteration's error. -/
theorem C2_counterexample :
    validationOk worldWriteAndCloseFail ∧ openOk worldWriteAndCloseFail ∧
    ¬ iterationOk worldWriteAndCloseFail 0 ∧
    (gitCommit (optionOf worldWriteAndCloseFail) (sampleCtx 2) worldWriteAndCloseFail 0).1 =
      some (Error.wrap "写入文件失败: %w" [] (Error.os (OsErr.other 5))) ∧
    (execGit (some (sampleCtx 2)) worldWriteAndCloseFail).result = Result.exited 1 ∧
    (execGit (some (sampleCtx 2)) worldWriteAndCloseFail).result ≠
      Result.returned (some (Error.wrap "写入文件失败: %w" [] (Error.os (OsErr.other 5)))) := by
  decide

/-- C2, amended: if iterations `1..k-1` succeed and iteration `k ≤ N` fails,
`gitCommit` returns an error in iteration `k` (the error of the failing write,
`git add` or `git commit`, wrapped); the run consists of the setup, `k-1`
full iterations, the operations of iteration `k` and the deferred close, so
nothing of iterations `k+1..N` is performed and no `git push` is invoked; and
`execGit` returns that error when the deferred close succeeds, while the
process exits with status 1 when the close fails. -/
theorem C2_failing_iteration_stops_run (w : World) (g : gitContext) (N k : Nat)
    (hk : 1 ≤ k) (hkN : k ≤ N) (hnum : g.num = (N : Int))
    (hval : validationOk w) (hopen : openOk w)
    (hprev : ∀ i, i < k - 1 → iterationOk w i)
    (hfail : ¬ iterationOk w (k - 1)) :
    (∃ fmt e, (gitCommit (optionOf w) g w (k - 1)).1 = some (Error.wrap fmt [] (Error.os e)) ∧
      (w.write (k - 1) = some e ∨ w.gitAdd (k - 1) = some e ∨ w.gitCommit (k - 1) = some e)) ∧
    (execGit (some g) w).trace =
      setupEvents w ++ (List.replicate (k - 1) (iterationEvents w g)).flatten ++
        (gitCommit (optionOf w) g w (k - 1)).2 ++ closeEvents w (textFilePathOf w) ∧
    writeCount (execGit (some g) w).trace = k ∧
    addCount (execGit (some g) w).trace ≤ k ∧
    commitCount (execGit (some g) w).trace ≤ k ∧
    pushCount (execGit (some g) w).trace = 0 ∧
    (w.close = none →
      (execGit (some g) w).result = Result.returned (gitCommit (optionOf w) g w (k - 1)).1) ∧
    (w.close ≠ none → (execGit (some g) w).result = Result.exited 1) := by
  have herr : ∃ fmt e,
      (gitCommit (optionOf w) g w (k - 1)).1 = some (Error.wrap fmt [] (Error.os e)) ∧
      (w.write (k - 1) = some e ∨ w.gitAdd (k - 1) = some e ∨ w.gitCommit (k - 1) = some e) := by
    unfold iterationOk at hfail
    unfold gitCommit
    cases h1 : w.write (k - 1) with
    | some e => exact ⟨_, e, rfl, Or.inl rfl⟩
    | none =>
      cases h2 : w.gitAdd (k - 1) with
      | some e => exact ⟨_, e, rfl, Or.inr (Or.inl rfl)⟩
      | none =>
        cases h3 : w.gitCommit (k - 1) with
        | some e => exact ⟨_, e, rfl, Or.inr (Or.inr rfl)⟩
        | none => exact absurd ⟨h1, h2, h3⟩ hfail
  have hne : (gitCommit (optionOf w) g w (0 + (k - 1))).1 ≠ none := by
    obtain ⟨fmt, e, he, _⟩ := herr
    simp [he]
  have hloop := commitLoop_of_first_failure w g (k - 1) (N - k) 0
    (fun j _ hj => hprev j (by omega)) hne
  have hshape : k - 1 + 1 + (N - k) = N := by omega
  rw [hshape] at hloop
  simp only [Nat.zero_add] at hloop
  have hbody : execGitBody g w (textFilePathOf w) (repoDirTrimmedOf w) =
      ((gitCommit (optionOf w) g w (k - 1)).1,
        (List.replicate (k - 1) (iterationEvents w g)).flatten ++
          (gitCommit (optionOf w) g w (k - 1)).2) := by
    obtain ⟨fmt, e, he, _⟩ := herr
    unfold optionOf at hloop he
    unfold optionOf
    simp [execGitBody, hnum, hloop, he]
  have htrace : (execGit (some g) w).trace =
      setupEvents w ++ (List.replicate (k - 1) (iterationEvents w g)).flatten ++
        (gitCommit (optionOf w) g w (k - 1)).2 ++ closeEvents w (textFilePathOf w) := by
    rw [execGit_of_setup w g hval hopen, hbody]
    unfold deferredClose
    cases w.close <;> simp
  have hk1 : k - 1 + 1 = k := by omega
  refine ⟨herr, htrace, ?_, ?_, ?_, ?_, ?_, ?_⟩
  · rw [htrace]
    unfold gitCommit closeEvents
    cases w.close <;> cases w.write (k - 1) <;> cases w.gitAdd (k - 1) <;>
      cases w.gitCommit (k - 1) <;>
      simp [writeCount, countP_flatten_replicate, setupEvents, iterationEvents,
        Event.isWrite, writeOp, hk1]
  · rw [htrace]
    unfold gitCommit closeEvents
    cases w.close <;> cases w.write (k - 1) <;> cases w.gitAdd (k - 1) <;>
      cases w.gitCommit (k - 1) <;>
      simp [addCount, countP_flatten_replicate, setupEvents, iterationEvents,
        Event.isGit, writeOp, gitAddCommand, gitCommitCommand] <;> omega
  · rw [htrace]
    unfold gitCommit closeEvents
    cases w.close <;> cases w.write (k - 1) <;> cases w.gitAdd (k - 1) <;>
      cases w.gitCommit (k - 1) <;>
      simp [commitCount, countP_flatten_replicate, setupEvents, iterationEvents,
        Event.isGit, writeOp, gitAddCommand, gitCommitCommand] <;> omega
  · rw [htrace]
    unfold gitCommit closeEvents
    cases w.close <;> cases w.write (k - 1) <;> cases w.gitAdd (k - 1) <;>
      cases w.gitCommit (k - 1) <;>
      simp [pushCount, countP_flatten_replicate, setupEvents, iterationEvents,
        Event.isGit, writeOp, gitAddCommand, gitCommitCommand]
  · intro hc
    rw [execGit_of_setup w g hval hopen, hbody]
    simp [deferredClose, hc]
  · intro hc
    rw [execGit_of_setup w g hval hopen, hbody]
    unfold deferredClose
    cases h : w.close with
    | none => exact absurd h hc
    | some e => rfl

/-- Witness for C2: `git add` fails in the second of two iterations. -/
theorem C2_failing_iteration_stops_run_witness :
    (∃ fmt e, (gitCommit (optionOf worldAddFails) (sampleCtx 2) worldAddFails (2 - 1)).1 =
        some (Error.wrap fmt [] (Error.os e)) ∧
      (worldAddFails.write (2 - 1) = some e ∨ worldAddFails.gitAdd (2 - 1) = some e ∨
        worldAddFails.gitCommit (2 - 1) = some e)) ∧
    (execGit (some (sampleCtx 2)) worldAddFails).trace =
      setupEvents worldAddFails ++
        (List.replicate (2 - 1) (iterationEvents worldAddFails (sampleCtx 2))).flatten ++
        (gitCommit (optionOf worldAddFails) (sampleCtx 2) worldAddFails (2 - 1)).2 ++
        closeEvents worldAddFails (textFilePathOf worldAddFails) ∧
    writeCount (execGit (some (sampleCtx 2)) worldAddFails).trace = 2 ∧
    addCount (execGit (some (sampleCtx 2)) worldAddFails).trace ≤ 2 ∧
    commitCount (execGit (some (sampleCtx 2)) worldAddFails).trace ≤ 2 ∧
    pushCount (execGit (some (sampleCtx 2)) worldAddFails).trace = 0 ∧
    (worldAddFails.close = none →
      (execGit (some (sampleCtx 2)) worldAddFails).result =
        Result.returned (gitCommit (optionOf worldAddFails) (sampleCtx 2) worldAddFails (2 - 1)).1) ∧
    (worldAddFails.close ≠ none →
      (execGit (some (sampleCtx 2)) worldAddFails).result = Result.exited 1) :=
  C2_failing_iteration_stops_run worldAddFails (sampleCtx 2) 2 2 (by decide) (by decide)
    (by decide) (by decide) (by decide) (by decide) (by decide)

/-- Counterexample to C3 as stated: the run reaches the push stage, the push
succeeds, but the deferred close fails; the process exits with status 1 and
`execGit` does not return. -/
theorem C3_counterexample :
    validationOk worldCloseFails ∧ openOk worldCloseFails ∧
    (∀ i, i < 2 → iterationOk worldCloseFails i) ∧
    worldCloseFails.gitPush 0 = none ∧
    pushCount (execGit (some (sampleCtx 2)) worldCloseFails).trace = 1 ∧
    (execGit (some (sampleCtx 2)) worldCloseFails).result = Result.exited 1 ∧
    (execGit (some (sampleCtx 2)) worldCloseFails).result ≠ Result.returned none := by
  decide

/-- C3, amended: in a run that reaches the push stage (validation, the open
and all iterations of the loop succeed) the operations after the last commit
are the push, a second push with the same command exactly when the first
failed and `tryForcePush` is set, and the deferred close.  When the close
succeeds, `execGit` returns no error if the first push succeeds, the first
push's own error if it fails and `tryForcePush` is false, and with
`tryForcePush` true no error if the second push succeeds and the wrapped
error of the second push if it fails.  When the close fails the process exits
with status 1. -/
theorem C3_push_stage (w : World) (g : gitContext)
    (hval : validationOk w) (hopen : openOk w)
    (hiter : ∀ i, i < g.num.toNat → iterationOk w i) :
    (w.gitPush 0 = none →
      (execGit (some g) w).trace =
        setupEvents w ++ (List.replicate g.num.toNat (iterationEvents w g)).flatten ++
          [pushEvent w true] ++ closeEvents w (textFilePathOf w) ∧
      (w.close = none → (execGit (some g) w).result = Result.returned none)) ∧
    (∀ e, w.gitPush 0 = some e → g.tryForcePush = false →
      (execGit (some g) w).trace =
        setupEvents w ++ (List.replicate g.num.toNat (iterationEvents w g)).flatten ++
          [pushEvent w false] ++ closeEvents w (textFilePathOf w) ∧
      (w.close = none →
        (execGit (some g) w).result = Result.returned (some (Error.os e)))) ∧
    (∀ e, w.gitPush 0 = some e → g.tryForcePush = true →
      (execGit (some g) w).trace =
        setupEvents w ++ (List.replicate g.num.toNat (iterationEvents w g)).flatten ++
          [pushEvent w false, pushEvent w (w.gitPush 1).isNone] ++
          closeEvents w (textFilePathOf w) ∧
      (w.close = none → w.gitPush 1 = none →
        (execGit (some g) w).result = Result.returned none) ∧
      (w.close = none → ∀ e2, w.gitPush 1 = some e2 →
        (execGit (some g) w).result =
          Result.returned (some (Error.wrap "force push 失败: %w" [] (Error.os e2))))) ∧
    (w.close ≠ none → (execGit (some g) w).result = Result.exited 1) := by
  have hrun : execGit (some g) w =
      deferredClose w (textFilePathOf w) (setupEvents w)
        ((pushStage g w (repoDirTrimmedOf w)).1,
          (List.replicate g.num.toNat (iterationEvents w g)).flatten ++
            (pushStage g w (repoDirTrimmedOf w)).2) := by
    rw [execGit_of_setup w g hval hopen, execGitBody_of_all_ok w g g.num.toNat rfl hiter]
  rw [hrun]
  refine ⟨?_, ?_, ?_, ?_⟩
  · intro h0
    unfold deferredClose pushStage pushEvent gitPushCommand
    cases hc : w.close <;> simp [h0]
  · intro e h0 hf
    unfold deferredClose pushStage pushEvent gitPushCommand
    cases hc : w.close <;> simp [h0, hf]
  · intro e h0 hf
    unfold deferredClose pushStage pushEvent gitPushCommand
    cases hc : w.close <;> cases h1 : w.gitPush 1 <;> simp [h0, hf]
  · intro hc
    unfold deferredClose
    cases h : w.close with
    | none => exact absurd h hc
    | some e => rfl

/-- Witness for C3: both pushes are rejected after two commits, so the run
holds two pushes and returns the wrapped error of the second. -/
theorem C3_push_stage_witness :
    (execGit (some (sampleCtx 2)) worldPushFails).trace =
      setupEvents worldPushFails ++
        (List.replicate (sampleCtx 2).num.toNat
          (iterationEvents worldPushFails (sampleCtx 2))).flatten ++
        [pushEvent worldPushFails false,
          pushEvent worldPushFails (worldPushFails.gitPush 1).isNone] ++
        closeEvents worldPushFails (textFilePathOf worldPushFails) ∧
    (execGit (some (sampleCtx 2)) worldPushFails).result =
      Result.returned (some (Error.wrap "force push 失败: %w" [] (Error.os (OsErr.other 1)))) :=
  have h := (C3_push_stage worldPushFails (sampleCtx 2) (by decide) (by decide)
    (by decide)).2.2.1 (OsErr.other 1) rfl rfl
  ⟨h.1, h.2.2 rfl (OsErr.other 1) rfl⟩

/-- Counterexample to C4 as stated: with `num = 0` and the context `_main`
builds (`tryForcePush` set), a rejected push is followed by a second one, so
the run holds two `git push` attempts. -/
theorem C4_counterexample :
    (getConsulData { num := 0, verbose := true, tryForcePush := true } worldZeroPushFails).2 =
      sampleCtx 0 ∧
    (sampleCtx 0).num = 0 ∧
    validationOk worldZeroPushFails ∧ openOk worldZeroPushFails ∧
    writeCount (execGit (some (sampleCtx 0)) worldZeroPushFails).trace = 0 ∧
    pushCount (execGit (some (sampleCtx 0)) worldZeroPushFails).trace = 2 ∧
    pushCount (_main worldZeroPushFails).trace = 2 := by
  decide

/-- C4, amended: with `num = 0`, when validation and the open succeed, there
is no write to the tracked file, no `git add` and no `git commit`; there is
one `git push` attempt, and a second one exactly when the first fails and
`tryForcePush` is set. -/
theorem C4_zero_commits (w : World) (g : gitContext) (hnum : g.num = 0)
    (hval : validationOk w) (hopen : openOk w) :
    writeCount (execGit (some g) w).trace = 0 ∧
    addCount (execGit (some g) w).trace = 0 ∧
    commitCount (execGit (some g) w).trace = 0 ∧
    pushCount (execGit (some g) w).trace =
      (if (w.gitPush 0).isSome ∧ g.tryForcePush = true then 2 else 1) := by
  have hbody := execGitBody_of_all_ok w g 0 (by simp [hnum])
    (fun i hi => absurd hi (Nat.not_lt_zero i))
  rw [execGit_of_setup w g hval hopen, hbody]
  unfold deferredClose pushStage closeEvents
  refine ⟨?_, ?_, ?_, ?_⟩ <;>
    cases w.close <;> cases h0 : w.gitPush 0 <;> cases h1 : w.gitPush 1 <;>
      cases hf : g.tryForcePush <;>
      simp [writeCount, addCount, commitCount, pushCount, setupEvents, Event.isWrite,
        Event.isGit, gitPushCommand]

/-- Witness for C4: no commit asked for, everything succeeds. -/
theorem C4_zero_commits_witness :
    writeCount (execGit (some (sampleCtx 0)) worldZero).trace = 0 ∧
    addCount (execGit (some (sampleCtx 0)) worldZero).trace = 0 ∧
    commitCount (execGit (some (sampleCtx 0)) worldZero).trace = 0 ∧
    pushCount (execGit (some (sampleCtx 0)) worldZero).trace =
      (if (worldZero.gitPush 0).isSome ∧ (sampleCtx 0).tryForcePush = true then 2 else 1) :=
  C4_zero_commits worldZero (sampleCtx 0) (by decide) (by decide) (by decide)

/-- Counting in one call of `gitCommit`. -/
theorem gitCommit_counts (option : gitCommitOption) (g : gitContext) (w : World) (i : Nat) :
    appendedCount (gitCommit option g w i).2 =
      commitCount (gitCommit option g w i).2 +
        (if addFailed (gitCommit option g w i).2 = true then 1 else 0) ∧
    ((gitCommit option g w i).1 = none → addFailed (gitCommit option g w i).2 = false) := by
  unfold gitCommit
  cases w.write i <;> cases w.gitAdd i <;> cases w.gitCommit i <;>
    simp [appendedCount, commitCount, addFailed, Event.isWrite, Event.isGit, writeOp,
      gitAddCommand, gitCommitCommand]

theorem appendedCount_append (a b : List Event) :
    appendedCount (a ++ b) = appendedCount a + appendedCount b := by
  simp [appendedCount]

theorem commitCount_append (a b : List Event) :
    commitCount (a ++ b) = commitCount a + commitCount b := by
  simp [commitCount]

theorem addFailed_append (a b : List Event) :
    addFailed (a ++ b) = (addFailed a || addFailed b) := by
  simp [addFailed]

/-- The push stage appends nothing, commits nothing and stages nothing. -/
theorem pushStage_counts (g : gitContext) (w : World) (dir : String) :
    appendedCount (pushStage g w dir).2 = 0 ∧ commitCount (pushStage g w dir).2 = 0 ∧
      addFailed (pushStage g w dir).2 = false := by
  unfold pushStage
  cases w.gitPush 0 <;> cases w.gitPush 1 <;> cases g.tryForcePush <;>
    simp [appendedCount, commitCount, addFailed, Event.isWrite, Event.isGit, gitPushCommand]

/-- The deferred close appends nothing, commits nothing and stages nothing. -/
theorem closeEvents_counts (w : World) (f : String) :
    appendedCount (closeEvents w f) = 0 ∧ commitCount (closeEvents w f) = 0 ∧
      addFailed (closeEvents w f) = false := by
  unfold closeEvents
  cases w.close <;>
    simp [appendedCount, commitCount, addFailed, Event.isWrite, Event.isGit]

/-- Counting in the commit loop. -/
theorem commitLoop_counts (option : gitCommitOption) (g : gitContext) (w : World) (n : Nat) :
    ∀ i,
      appendedCount (commitLoop option g w n i).2 =
        commitCount (commitLoop option g w n i).2 +
          (if addFailed (commitLoop option g w n i).2 = true then 1 else 0) ∧
      ((commitLoop option g w n i).1 = none →
        addFailed (commitLoop option g w n i).2 = false) := by
  induction n with
  | zero => intro i; simp [commitLoop, appendedCount, commitCount, addFailed]
  | succ n ih =>
    intro i
    have hg := gitCommit_counts option g w i
    have hl := ih (i + 1)
    unfold commitLoop
    rcases hgc : gitCommit option g w i with ⟨e, evs⟩
    rw [hgc] at hg
    cases e with
    | some err => simpa using hg.1
    | none =>
      have hev : addFailed evs = false := hg.2 rfl
      have hcnt := hg.1
      simp only [hev] at hcnt
      simp only [appendedCount_append, commitCount_append, addFailed_append, hev,
        Bool.false_or]
      refine ⟨?_, hl.2⟩
      rw [hl.1]
      simp at hcnt
      omega

/-- Counting in the body of `execGit`. -/
theorem execGitBody_counts (g : gitContext) (w : World) (path dir : String) :
    appendedCount (execGitBody g w path dir).2 =
      commitCount (execGitBody g w path dir).2 +
        (if addFailed (execGitBody g w path dir).2 = true then 1 else 0) := by
  have hl := commitLoop_counts ⟨path, path, dir⟩ g w g.num.toNat 0
  obtain ⟨p1, p2, p3⟩ := pushStage_counts g w dir
  unfold execGitBody
  rcases hcl : commitLoop ⟨path, path, dir⟩ g w g.num.toNat 0 with ⟨e, evs⟩
  rw [hcl] at hl
  cases e with
  | some err => simpa using hl.1
  | none =>
    have hev : addFailed evs = false := hl.2 rfl
    have hcnt := hl.1
    simp only [hev] at hcnt
    simp only [appendedCount_append, commitCount_append, addFailed_append, hev, p1, p2, p3,
      Bool.false_or]
    simpa using hcnt

/-- Counting after the deferred close. -/
theorem deferredClose_counts (w : World) (f : String) (pre : List Event)
    (body : Option Error × List Event)
    (hpre : appendedCount pre = 0 ∧ commitCount pre = 0 ∧ addFailed pre = false)
    (hbody : appendedCount body.2 =
      commitCount body.2 + (if addFailed body.2 = true then 1 else 0)) :
    appendedCount (deferredClose w f pre body).trace =
      commitCount (deferredClose w f pre body).trace +
        (if addFailed (deferredClose w f pre body).trace = true then 1 else 0) := by
  obtain ⟨h1, h2, h3⟩ := hpre
  obtain ⟨c1, c2, c3⟩ := closeEvents_counts w f
  have htr : (deferredClose w f pre body).trace = pre ++ body.2 ++ closeEvents w f := by
    unfold deferredClose
    cases w.close <;> rfl
  rw [htr]
  simp only [appendedCount_append, commitCount_append, addFailed_append, h1, h2, h3, c1, c2,
    c3, Bool.false_or, Bool.or_false, Nat.zero_add, Nat.add_zero]
  exact hbody

/-- Every run of `execGit` either stops before the tracked file is opened,
having appended, committed and staged nothing, or is a body run between such
a prefix and the deferred close. -/
theorem execGit_trace_cases (context : Option gitContext) (w : World) :
    (appendedCount (execGit context w).trace = 0 ∧ commitCount (execGit context w).trace = 0 ∧
      addFailed (execGit context w).trace = false) ∨
    ∃ g f pre path dir,
      (appendedCount pre = 0 ∧ commitCount pre = 0 ∧ addFailed pre = false) ∧
      execGit context w = deferredClose w f pre (execGitBody g w path dir) := by
  unfold execGit
  dsimp only
  repeat' split
  all_goals first
    | (left
       simp [appendedCount, commitCount, addFailed, Event.isWrite, Event.isGit]
       done)
    | (right
       refine ⟨_, _, _, _, _, ?_, rfl⟩
       simp [appendedCount, commitCount, addFailed, Event.isWrite, Event.isGit])

/-- Counterexample to C5 as stated: `git add` fails in the second iteration;
two lines have been appended and one commit invoked. -/
theorem C5_counterexample :
    appendedCount (execGit (some (sampleCtx 2)) worldAddFails).trace = 2 ∧
    commitCount (execGit (some (sampleCtx 2)) worldAddFails).trace = 1 ∧
    appendedCount (execGit (some (sampleCtx 2)) worldAddFails).trace ≠
      commitCount (execGit (some (sampleCtx 2)) worldAddFails).trace := by
  decide

/-- C5, amended: in every run of `execGit` the number of `git commit`
invocations equals the number of lines successfully appended, except in a run
stopped by a failing `git add`, where exactly one more line has been appended
than commits were invoked. -/
theorem C5_appended_vs_commits (context : Option gitContext) (w : World) :
    appendedCount (execGit context w).trace =
      commitCount (execGit context w).trace +
        (if addFailed (execGit context w).trace = true then 1 else 0) := by
  rcases execGit_trace_cases context w with ⟨h1, h2, h3⟩ | ⟨g, f, pre, path, dir, hpre, hrun⟩
  · simp [h1, h2, h3]
  · rw [hrun]
    exact deferredClose_counts w f pre _ hpre (execGitBody_counts g w path dir)

/-- C6: when `HONEYDEW_REPO_DIR` is unset, empty or made of white space only,
`execGit` returns the missing-repository-path error and performs no
operation at all: no stat, chdir, open or write and no subprocess. -/
theorem C6_missing_repo_dir (w : World) (g : gitContext)
    (h : w.env "HONEYDEW_REPO_DIR" = none ∨
      ∃ s, w.env "HONEYDEW_REPO_DIR" = some s ∧ ∀ c ∈ s.data, isSpace c = true) :
    execGit (some g) w =
      ⟨Result.returned (some (Error.msg "未设置 REPO 路径 HONEYDEW_REPO_DIR" [])), []⟩ := by
  have htrim : TrimSpace (Getenv w "HONEYDEW_REPO_DIR") = "" := by
    rcases h with h | ⟨s, hs, hall⟩
    · have : Getenv w "HONEYDEW_REPO_DIR" = "" := by simp [Getenv, h]
      rw [this]
      rfl
    · have : Getenv w "HONEYDEW_REPO_DIR" = s := by simp [Getenv, hs]
      rw [this]
      exact TrimSpace_eq_empty_of_forall_isSpace s hall
  simp [execGit, htrim]

/-- Witness for C6: the variable holds a space, a tab and a line feed. -/
theorem C6_missing_repo_dir_witness :
    execGit (some (sampleCtx 2)) worldBlankRepo =
      ⟨Result.returned (some (Error.msg "未设置 REPO 路径 HONEYDEW_REPO_DIR" [])), []⟩ :=
  C6_missing_repo_dir worldBlankRepo (sampleCtx 2)
    (Or.inr ⟨" \t\n", by decide, by decide⟩)

/-- C7: when the stored value is not valid JSON, `getConsulData` returns an
error (the syntax error of `json.Unmarshal` when the client was created) and
leaves the context alone; `_main` returns that error and ends there, so its
run holds no filesystem operation and no subprocess. -/
theorem C7_malformed_config (w : World) (value : String)
    (hget : w.kvGet = KVResult.pair (some value))
    (hbad : parseJSON value.data = none) :
    (∀ ctx, ∃ err, (getConsulData ctx w).1.result = Result.returned (some err) ∧
      (getConsulData ctx w).2 = ctx ∧
      (w.newClient = none → err = Error.jsonSyntax)) ∧
    _main w = (getConsulData mainCtx w).1 ∧
    (∃ err, (_main w).result = Result.returned (some err)) ∧
    (∀ e ∈ (_main w).trace, e.isFs = false ∧ e.isRun = false) := by
  have hun : Unmarshal value.data { Num := 0 } = Except.error Error.jsonSyntax := by
    simp [Unmarshal, hbad]
  refine ⟨?_, ?_, ?_, ?_⟩
  · intro ctx
    unfold getConsulData
    cases hn : w.newClient with
    | some e => exact ⟨Error.os e, rfl, rfl, fun h => by cases h⟩
    | none => exact ⟨Error.jsonSyntax, by simp [hget, hun], by simp [hget, hun], fun _ => rfl⟩
  · unfold _main mainCtx getConsulData
    cases hn : w.newClient <;> simp [hget, hun]
  · unfold _main getConsulData
    cases hn : w.newClient <;> simp [hget, hun]
  · unfold _main getConsulData
    cases hn : w.newClient <;> simp [hget, hun, Event.isFs, Event.isRun]

/-- Witness for C7: the stored value is `not-json`. -/
theorem C7_malformed_config_witness :
    (∀ ctx, ∃ err, (getConsulData ctx worldNotJson).1.result = Result.returned (some err) ∧
      (getConsulData ctx worldNotJson).2 = ctx ∧
      (worldNotJson.newClient = none → err = Error.jsonSyntax)) ∧
    _main worldNotJson = (getConsulData mainCtx worldNotJson).1 ∧
    (∃ err, (_main worldNotJson).result = Result.returned (some err)) ∧
    (∀ e ∈ (_main worldNotJson).trace, e.isFs = false ∧ e.isRun = false) :=
  C7_malformed_config worldNotJson "not-json" rfl rfl

/-- C9, the code at a failing input: `HONEYDEW_REPO_DIR` is `/repo` followed
by a space.  Validation passes on the trimmed path `/repo`, but the tracked
file is looked up and opened under the untrimmed directory, whose name ends
in a space, and not at `/repo/hello.txt`. -/
theorem C9_tracked_file_outside_repository :
    validationOk worldTrailingSpace ∧
    repoDirTrimmedOf worldTrailingSpace = "/repo" ∧
    filepathJoin [repoDirTrimmedOf worldTrailingSpace, "hello.txt"] = "/repo/hello.txt" ∧
    textFilePathOf worldTrailingSpace = "/repo /hello.txt" ∧
    execGit (some (sampleCtx 1)) worldTrailingSpace =
      ⟨Result.returned (some (Error.wrap "文件 %q 创建失败: %w" ["/repo /hello.txt"]
          (Error.os OsErr.notExist))),
        [⟨Op.stat "/repo", true⟩, ⟨Op.chdir "/repo", true⟩,
          ⟨Op.stat "/repo /hello.txt", false⟩,
          ⟨Op.openFile "/repo /hello.txt" OpenFlag.rdwrCreate 0o600, false⟩]⟩ := by
  decide

/-- C10, the code at a failing input: the key does not exist, `KV.Get`
returns a nil pair and a nil error, and `getConsulData` dereferences the nil
pair: it panics instead of returning, and so does `_main`. -/
theorem C10_nil_pair_panics :
    worldKeyAbsent.newClient = none ∧
    worldKeyAbsent.kvGet = KVResult.pair none ∧
    (getConsulData mainCtx worldKeyAbsent).1.result = Result.panicked ∧
    (_main worldKeyAbsent).result = Result.panicked := by
  decide

/-- Storing a value into `Num` reports no error exactly when the value is
`null` or an integer literal in range. -/
theorem decodeNum_error_eq_none_iff (v : JValue) (d : ConsulData) :
    (decodeNum v d).2 = none ↔ storableInt v = true := by
  cases v with
  | number lit => cases h : parseInt64 lit <;> simp [decodeNum, storableInt, h]
  | null => simp [decodeNum, storableInt]
  | bool b => simp [decodeNum, storableInt]
  | string x => simp [decodeNum, storableInt]
  | array xs => simp [decodeNum, storableInt]
  | object ms => simp [decodeNum, storableInt]

/-- Decoding an object reports no error exactly when none was saved before
and no member selecting `Num` holds an unstorable value. -/
theorem decodeObject_error_eq_none_iff (ms : List (List Char × JValue)) :
    ∀ (d : ConsulData) (saved : Option Error),
      (decodeObject ms d saved).2 = none ↔
        (saved = none ∧ ∀ m ∈ ms, badNumMember m = false) := by
  induction ms with
  | nil => intro d saved; simp [decodeObject]
  | cons m ms ih =>
    intro d saved
    obtain ⟨key, v⟩ := m
    rw [List.forall_mem_cons]
    unfold decodeObject
    cases hk : foldsToNum key with
    | true =>
      rw [if_pos rfl, ih]
      cases saved with
      | some e => simp
      | none =>
        have hv := decodeNum_error_eq_none_iff v d
        have hb : badNumMember (key, v) = false ↔ storableInt v = true := by
          simp [badNumMember, hk]
        rw [hb, ← hv]
        simp
    | false =>
      have hb : badNumMember (key, v) = false := by simp [badNumMember, hk]
      rw [if_neg (by simp), ih]
      simp [hb]

/-- The integer decoded from an object none of whose members is unstorable. -/
theorem decodeObject_num (ms : List (List Char × JValue)) :
    ∀ (d : ConsulData) (saved : Option Error),
      (∀ m ∈ ms, badNumMember m = false) →
        (decodeObject ms d saved).1.Num = lastNum ms d.Num := by
  induction ms with
  | nil => intro d saved _; rfl
  | cons m ms ih =>
    intro d saved h
    obtain ⟨key, v⟩ := m
    have hm : badNumMember (key, v) = false := h (key, v) (List.mem_cons_self _ _)
    have hms : ∀ m ∈ ms, badNumMember m = false :=
      fun m hmem => h m (List.mem_cons_of_mem _ hmem)
    unfold decodeObject lastNum
    by_cases hk : foldsToNum key = true
    · simp only [hk, if_true]
      rw [ih _ _ hms]
      cases v with
      | number lit =>
        cases hp : parseInt64 lit with
        | some n => simp [decodeNum, hp]
        | none => simp [badNumMember, hk, storableInt, hp] at hm
      | null => simp [decodeNum]
      | bool b => simp [decodeNum]
      | string x => simp [decodeNum]
      | array xs => simp [decodeNum]
      | object xs => simp [decodeNum]
    · simp only [hk, if_false]
      exact ih _ _ hms

/-- Counterexample to C8 as stated: the stored value is the empty object, a
valid JSON object without a `num` field; `getConsulData` succeeds and sets
`ctx.num`, which was 7, to 0. -/
theorem C8_counterexample :
    (∃ ms, parseJSON worldEmptyObject_value.data = some (JValue.object ms) ∧
      ∀ m ∈ ms, foldsToNum m.1 = false) ∧
    worldEmptyObject.kvGet = KVResult.pair (some worldEmptyObject_value) ∧
    (sampleCtx 7).num = 7 ∧
    (getConsulData (sampleCtx 7) worldEmptyObject).1.result = Result.returned none ∧
    (getConsulData (sampleCtx 7) worldEmptyObject).2.num = 0 :=
  ⟨⟨[], rfl, by simp⟩, by decide, by decide, by decide, by decide⟩

/-- C8, amended: with the client created and a pair found, `getConsulData`
fails with an error and leaves the context unchanged when the stored value
is not valid JSON (which includes a text nested deeper than 10000 arrays and
objects), when it is valid JSON that is neither an object nor `null`, and
when it is an object with a member named `num` (in any letter case) whose
value is neither `null` nor an integer literal in range.  On every other
value it succeeds: on an object it sets `ctx.num` to the integer of the last
such member, and to 0 when there is none (as for the empty object); on `null`
it sets `ctx.num` to 0. -/
theorem C8_config_shape (w : World) (ctx : gitContext) (value : String)
    (hnew : w.newClient = none) (hget : w.kvGet = KVResult.pair (some value)) :
    (parseJSON value.data = none →
      (getConsulData ctx w).1.result = Result.returned (some Error.jsonSyntax) ∧
      (getConsulData ctx w).2 = ctx) ∧
    (∀ v, parseJSON value.data = some v → (∀ ms, v ≠ JValue.object ms) → v ≠ JValue.null →
      (∃ err, (getConsulData ctx w).1.result = Result.returned (some err)) ∧
      (getConsulData ctx w).2 = ctx) ∧
    (∀ ms, parseJSON value.data = some (JValue.object ms) →
      (∃ m ∈ ms, badNumMember m = true) →
      (∃ err, (getConsulData ctx w).1.result = Result.returned (some err)) ∧
      (getConsulData ctx w).2 = ctx) ∧
    (∀ ms, parseJSON value.data = some (JValue.object ms) →
      (∀ m ∈ ms, badNumMember m = false) →
      (getConsulData ctx w).1.result = Result.returned none ∧
      (getConsulData ctx w).2 = { ctx with num := lastNum ms 0 }) ∧
    (parseJSON value.data = some JValue.null →
      (getConsulData ctx w).1.result = Result.returned none ∧
      (getConsulData ctx w).2 = { ctx with num := 0 }) ∧
    (∀ n rest, maxNestingDepth ≤ n → value.data = deepMember n rest →
      (getConsulData ctx w).1.result = Result.returned (some Error.jsonSyntax) ∧
      (getConsulData ctx w).2 = ctx) := by
  have hinvalid : parseJSON value.data = none →
      (getConsulData ctx w).1.result = Result.returned (some Error.jsonSyntax) ∧
      (getConsulData ctx w).2 = ctx := by
    intro hp
    simp [getConsulData, hnew, hget, Unmarshal, hp]
  refine ⟨hinvalid, ?_, ?_, ?_, ?_, ?_⟩
  · intro v hp hobj hnull
    cases v with
    | null => exact absurd rfl hnull
    | object ms => exact absurd rfl (hobj ms)
    | bool b => simp [getConsulData, hnew, hget, Unmarshal, hp]
    | number lit => simp [getConsulData, hnew, hget, Unmarshal, hp]
    | string x => simp [getConsulData, hnew, hget, Unmarshal, hp]
    | array xs => simp [getConsulData, hnew, hget, Unmarshal, hp]
  · intro ms hp hbad
    have hne : (decodeObject ms { Num := 0 } none).2 ≠ none := by
      intro h
      obtain ⟨m, hm, hb⟩ := hbad
      have := ((decodeObject_error_eq_none_iff ms { Num := 0 } none).1 h).2 m hm
      rw [this] at hb
      cases hb
    rcases hd : decodeObject ms { Num := 0 } none with ⟨d, saved⟩
    rw [hd] at hne
    cases saved with
    | none => exact absurd rfl hne
    | some e => simp [getConsulData, hnew, hget, Unmarshal, hp, hd]
  · intro ms hp hgood
    have hnone : (decodeObject ms { Num := 0 } none).2 = none :=
      (decodeObject_error_eq_none_iff ms { Num := 0 } none).2 ⟨rfl, hgood⟩
    have hnum := decodeObject_num ms { Num := 0 } none hgood
    rcases hd : decodeObject ms { Num := 0 } none with ⟨d, saved⟩
    rw [hd] at hnone hnum
    simp only at hnone hnum
    subst hnone
    simp [getConsulData, hnew, hget, Unmarshal, hp, hd, hnum]
  · intro hp
    simp [getConsulData, hnew, hget, Unmarshal, hp]
  · intro n rest hn hdata
    apply hinvalid
    rw [hdata]
    exact parseJSON_deep_member rest n hn

/-- Witness for C8, one stored value per case of the theorem: an object cut
short (not valid JSON) and an array fail and leave `ctx.num` at 7, and so
does an object whose `num` is one above the largest `int64`; an object with
keys in several letter cases, a nested `num` key, the largest `int64` and a
final `null` succeeds with the last integer; `null` succeeds with 0. -/
theorem C8_config_shape_witness :
    ((getConsulData (sampleCtx 7) worldTruncated).1.result =
        Result.returned (some Error.jsonSyntax) ∧
      (getConsulData (sampleCtx 7) worldTruncated).2 = sampleCtx 7) ∧
    ((∃ err, (getConsulData (sampleCtx 7) worldArrayValue).1.result =
        Result.returned (some err)) ∧
      (getConsulData (sampleCtx 7) worldArrayValue).2 = sampleCtx 7) ∧
    ((∃ err, (getConsulData (sampleCtx 7) worldOutOfRange).1.result =
        Result.returned (some err)) ∧
      (getConsulData (sampleCtx 7) worldOutOfRange).2 = sampleCtx 7) ∧
    ((getConsulData (sampleCtx 7) worldRichObject).1.result = Result.returned none ∧
      (getConsulData (sampleCtx 7) worldRichObject).2 =
        { sampleCtx 7 with num := lastNum worldRichObject_members 0 } ∧
      lastNum worldRichObject_members 0 = 9223372036854775807) ∧
    ((getConsulData (sampleCtx 7) worldNullValue).1.result = Result.returned none ∧
      (getConsulData (sampleCtx 7) worldNullValue).2 = { sampleCtx 7 with num := 0 }) :=
  have hrich := (C8_config_shape worldRichObject (sampleCtx 7) worldRichObject_value
    rfl rfl).2.2.2.1 worldRichObject_members rfl (by decide)
  ⟨(C8_config_shape worldTruncated (sampleCtx 7) "\x7b\"num\": 1" rfl rfl).1 rfl,
    (C8_config_shape worldArrayValue (sampleCtx 7) "[1]" rfl rfl).2.1
      (JValue.array [JValue.number "1".data]) rfl
      (fun ms h => by cases h) (fun h => by cases h),
    (C8_config_shape worldOutOfRange (sampleCtx 7) worldOutOfRange_value rfl rfl).2.2.1
      worldOutOfRange_members rfl
      ⟨("num".data, JValue.number "9223372036854775808".data),
        List.mem_singleton.2 rfl, by decide⟩,
    ⟨hrich.1, hrich.2, by decide⟩,
    (C8_config_shape worldNullValue (sampleCtx 7) "null" rfl rfl).2.2.2.2.1 rfl⟩

end Honeydew
